import Mathlib

/-!
# node-label-inheritor: the pod/node label reconciler

A shallow embedding of `PodNodeLabelReconciler.Reconcile` (src/main.go, lines 59-111)
and of the library operations it calls (`strings.Split`, `strings.Trim`, Go map
reads and writes, the controller-runtime client `Get` and `Update`), followed by
the properties of the reconciliation attempt.

Modelling conventions.
* A Go `map[string]string` is `GoMap`: `none` is the nil map, `some es` an allocated map
  whose entries are the association list `es` (first binding of a key wins, an
  assignment overwrites the first binding or appends a new one).
* A Go `error` is `Error`; the value `nil` is `Option.none`.
* The cluster store behind the client is `Store`; one attempt is a function from the
  store before to an `Attempt`: what the call returned (or that it stopped on a
  runtime fault), the client calls it made in order, and the store afterwards.
-/

namespace NodeLabelInheritor

/-! ## Go values -/

/-- An error handed back by the client; `notFound` is what `errors.IsNotFound` answers for it. -/
structure ClientError where
  notFound : Bool
  msg : String
deriving DecidableEq, Repr

/-- Go error values `Reconcile` can return: `client` is an error of the client passed on as
it is, `errorf` is the fresh error built by `fmt.Errorf` with the given message. -/
inductive Error where
  | client (e : ClientError)
  | errorf (msg : String)
deriving DecidableEq, Repr

/-- The test `errors.IsNotFound(err)` on an error of the client. -/
def IsNotFound (e : ClientError) : Bool :=
  e.notFound

/-- A Go `map[string]string`; `none` is the nil map. -/
abbrev GoMap := Option (List (String × String))

/-- First binding of `k` among the entries of an allocated map. -/
def lookupEntry (k : String) : List (String × String) → Option String
  | [] => none
  | (k', v) :: rest => if k' = k then some v else lookupEntry k rest

/-- Overwrite the binding of `k`, or add one when there is none. -/
def setEntry (k v : String) : List (String × String) → List (String × String)
  | [] => [(k, v)]
  | (k', v') :: rest => if k' = k then (k, v) :: rest else (k', v') :: setEntry k v rest

/-- The comma-ok read `v, ok := m[k]`: `some v` when `ok`, and reading the nil map finds nothing. -/
def mapLookup (m : GoMap) (k : String) : Option String :=
  match m with
  | none => none
  | some es => lookupEntry k es

/-- The plain read `m[k]`: the zero value `""` when the key is absent. -/
def mapIndex (m : GoMap) (k : String) : String :=
  (mapLookup m k).getD ""

/-- The assignment `m[k] = v`. Writing to the nil map is the Go runtime fault
"assignment to entry in nil map", here `none`. -/
def mapAssign (m : GoMap) (k v : String) : Option GoMap :=
  match m with
  | none => none
  | some es => some (some (setEntry k v es))

/-- Pieces of a character list between occurrences of `sep`; always at least one piece. -/
def splitChars (sep : Char) : List Char → List (List Char)
  | [] => [[]]
  | c :: cs =>
    if c = sep then [] :: splitChars sep cs
    else
      match splitChars sep cs with
      | [] => [[c]]
      | t :: ts => (c :: t) :: ts

/-- The call `strings.Split(s, sep)` for a one-character separator. -/
def Split (s : String) (sep : Char) : List String :=
  (splitChars sep s.data).map String.mk

/-- Membership of a character in a cutset. -/
def inCutset (cutset : String) (c : Char) : Bool :=
  cutset.data.contains c

/-- The call `strings.Trim(s, cutset)`: leading and trailing characters of the cutset removed. -/
def Trim (s : String) (cutset : String) : String :=
  String.mk (((s.data.dropWhile (inCutset cutset)).reverse.dropWhile (inCutset cutset)).reverse)

/-! ## Objects and the store -/

/-- The fields of `corev1.Pod` that `Reconcile` reads or writes. -/
structure Pod where
  Annotations : GoMap
  NodeName : String
  Labels : GoMap
deriving DecidableEq, Repr

/-- The fields of `corev1.Node` that `Reconcile` reads. -/
structure Node where
  Labels : GoMap
deriving DecidableEq, Repr

/-- The value `ctrl.Result`. -/
structure Result where
  Requeue : Bool
  RequeueAfter : Nat
deriving DecidableEq, Repr

/-- The cluster store behind the client: what a read of a pod key or of a node name
answers, and the error with which an update of the pod stored under a key is refused
(`none`: the update is accepted). -/
structure Store where
  pods : String → Except ClientError Pod
  nodes : String → Except ClientError Node
  rejects : String → Pod → Option ClientError

/-- A call on the client. -/
inductive Call where
  | getPod (key : String)
  | getNode (name : String)
  | update (key : String) (pod : Pod)
deriving DecidableEq, Repr

/-- How an attempt ends: it returns `(result, err)`, or the goroutine stops on a runtime fault. -/
inductive Return where
  | returned (res : Result) (err : Option Error)
  | fault
deriving DecidableEq, Repr

/-- One reconciliation attempt, observed from outside. -/
structure Attempt where
  ret : Return
  calls : List Call
  store : Store

/-- The store with `pod` stored under `key`. -/
def Store.put (s : Store) (key : String) (pod : Pod) : Store :=
  { s with pods := fun k => if k = key then .ok pod else s.pods k }

/-- The call `r.Update(ctx, pod)` for the pod read under `key`: the error returned and the
store afterwards. A refused update leaves the store as it was. -/
def Store.Update (s : Store) (key : String) (pod : Pod) : Option Error × Store :=
  match s.rejects key pod with
  | some e => (some (.client e), s)
  | none => (none, s.put key pod)

/-- The updates among a list of client calls. -/
def writes : List Call → List Pod
  | [] => []
  | .update _ p :: cs => p :: writes cs
  | _ :: cs => writes cs

/-- The node reads among a list of client calls. -/
def nodeReads : List Call → List String
  | [] => []
  | .getNode n :: cs => n :: nodeReads cs
  | _ :: cs => nodeReads cs

/-! ## Reconcile -/

/-- The variables the loop of lines 96-104 changes: the pod's label map and `needsUpdate`. -/
structure LoopState where
  labels : GoMap
  needsUpdate : Bool
deriving DecidableEq, Repr

/-- One iteration of the loop of lines 96-104; `none` is the runtime fault of line 100. -/
def loopBody (node : Node) (st : LoopState) (nodeLbl : String) : Option LoopState :=
  let nodeLbl := Trim nodeLbl " \n\r"
  match mapLookup node.Labels nodeLbl with
  | some _ =>
    if (mapLookup st.labels nodeLbl).isNone || mapIndex st.labels nodeLbl != mapIndex node.Labels nodeLbl then
      match mapAssign st.labels nodeLbl (mapIndex node.Labels nodeLbl) with
      | none => none
      | some m => some { labels := m, needsUpdate := true }
    else some st
  | none => some st

/-- The loop of lines 96-104 over the tokens. -/
def loop (node : Node) : LoopState → List String → Option LoopState
  | st, [] => some st
  | st, t :: ts =>
    match loopBody node st t with
    | none => none
    | some st' => loop node st' ts

/-- The node object after the unchecked `r.Client.Get` of lines 90-93: the object read, or
the zero-value node when the read failed. -/
def nodeAfterGet (s : Store) (name : String) : Node :=
  match s.nodes name with
  | .ok n => n
  | .error _ => { Labels := none }

/-- The method `PodNodeLabelReconciler.Reconcile` for the request key `req`. -/
def Reconcile (s : Store) (req : String) : Attempt :=
  match s.pods req with
  | .error err =>
    if IsNotFound err then
      { ret := .returned ⟨false, 0⟩ none, calls := [.getPod req], store := s }
    else
      { ret := .returned ⟨false, 0⟩ (some (.client err)), calls := [.getPod req], store := s }
  | .ok pod =>
    if pod.Annotations = none ∨ pod.NodeName = "" then
      { ret := .returned ⟨false, 0⟩ none, calls := [.getPod req], store := s }
    else
      match mapLookup pod.Annotations "nodeLabelsInherited" with
      | none => { ret := .returned ⟨false, 0⟩ none, calls := [.getPod req], store := s }
      | some nodeLabelConfig =>
        let nodeLabels := Split nodeLabelConfig ','
        if nodeLabels.length = 0 ∨ nodeLabels.head? = some "" then
          { ret := .returned ⟨false, 0⟩
              (some (.errorf ("failed to parse node labels: " ++ nodeLabelConfig))),
            calls := [.getPod req], store := s }
        else
          let node := nodeAfterGet s pod.NodeName
          match loop node { labels := pod.Labels, needsUpdate := false } nodeLabels with
          | none =>
            { ret := .fault, calls := [.getPod req, .getNode pod.NodeName], store := s }
          | some st =>
            if !st.needsUpdate then
              { ret := .returned ⟨false, 0⟩ none,
                calls := [.getPod req, .getNode pod.NodeName], store := s }
            else
              let pod' : Pod := { pod with Labels := st.labels }
              { ret := .returned ⟨false, 0⟩ (s.Update req pod').1,
                calls := [.getPod req, .getNode pod.NodeName, .update req pod'],
                store := (s.Update req pod').2 }

/-! ## Concrete stores used in examples -/

/-- A store with one pod under the key `default/web` and one node `n1`, accepting updates. -/
def storeOf (pod : Pod) (node : Node) : Store where
  pods := fun k => if k = "default/web" then .ok pod else .error ⟨true, "not found"⟩
  nodes := fun n => if n = "n1" then .ok node else .error ⟨true, "not found"⟩
  rejects := fun _ _ => none

/-- A store like `storeOf` that refuses every update with a conflict error. -/
def conflictStoreOf (pod : Pod) (node : Node) : Store where
  pods := fun k => if k = "default/web" then .ok pod else .error ⟨true, "not found"⟩
  nodes := fun n => if n = "n1" then .ok node else .error ⟨true, "not found"⟩
  rejects := fun _ _ => some ⟨false, "conflict"⟩

/-- A store whose pod read fails with the given error. -/
def brokenStore (e : ClientError) : Store where
  pods := fun _ => .error e
  nodes := fun _ => .error ⟨true, "not found"⟩
  rejects := fun _ _ => none

/-- The host of the examples: labels `zone=us-east-1a` and `rack=7`. -/
def nodeZone : Node := ⟨some [("zone", "us-east-1a"), ("rack", "7")]⟩

/-- A scheduled pod asking for `zone`, with an allocated, empty label map. -/
def podZone : Pod := ⟨some [("nodeLabelsInherited", "zone")], "n1", some []⟩

/-- The same pod already carrying the host's `zone`. -/
def podSynced : Pod := ⟨some [("nodeLabelsInherited", "zone")], "n1", some [("zone", "us-east-1a")]⟩

/-- A scheduled pod asking for `zone` that has a label of its own and a stale `zone`. -/
def podStale : Pod :=
  ⟨some [("nodeLabelsInherited", "zone")], "n1", some [("app", "web"), ("zone", "old")]⟩

/-- A pod asking for `zone` that has not been scheduled yet. -/
def podUnscheduled : Pod := ⟨some [("nodeLabelsInherited", "zone")], "", some []⟩

/-- A scheduled pod whose annotation value is the empty string. -/
def podEmptyValue : Pod := ⟨some [("nodeLabelsInherited", "")], "n1", some []⟩

/-- A scheduled pod whose annotation value starts with the separator. -/
def podLeadingComma : Pod := ⟨some [("nodeLabelsInherited", ",zone")], "n1", some []⟩

/-- A scheduled pod whose token is written with a leading tab. -/
def podTab : Pod := ⟨some [("nodeLabelsInherited", "\tzone")], "n1", some []⟩

/-- A scheduled pod asking for `zone` that has annotations but no label map at all. -/
def podNoLabels : Pod := ⟨some [("nodeLabelsInherited", "zone")], "n1", none⟩

/-- A scheduled pod whose token `zone` is written with surrounding space, newline and return. -/
def podPadded : Pod := ⟨some [("nodeLabelsInherited", " \nzone\r ")], "n1", some []⟩

/-! ## Vocabulary of the statements -/

/-- The keys the loop looks up for an annotation value: its comma-separated tokens, trimmed. -/
def directiveKeys (v : String) : List String :=
  (Split v ',').map (fun t => Trim t " \n\r")

/-- A key calls for a correction: the host has a value for it and the label map does not hold
that value under it. -/
def needsFix (node : Node) (labels : GoMap) (k : String) : Prop :=
  ∃ v, mapLookup node.Labels k = some v ∧ mapLookup labels k ≠ some v

/-- The annotation value passes the check of line 86. -/
def wellFormed (v : String) : Prop :=
  ¬ ((Split v ',').length = 0 ∨ (Split v ',').head? = some "")

instance (v : String) : Decidable (wellFormed v) := by
  unfold wellFormed; infer_instance

/-- The directive keys of a pod: those of its annotation value, none without the annotation. -/
def podDirectiveKeys (pod : Pod) : List String :=
  match mapLookup pod.Annotations "nodeLabelsInherited" with
  | some v => directiveKeys v
  | none => []

/-- The store in which every host read succeeds with a host that has no label map. -/
def withUnlabelledHosts (s : Store) : Store :=
  { s with nodes := fun _ => .ok { Labels := none } }

/-! ## Go maps -/

theorem lookupEntry_setEntry (k v k' : String) (es : List (String × String)) :
    lookupEntry k' (setEntry k v es) = if k' = k then some v else lookupEntry k' es := by
  induction es with
  | nil =>
    by_cases h : k' = k
    · simp [setEntry, lookupEntry, h]
    · have h' : ¬ k = k' := fun e => h e.symm
      simp [setEntry, lookupEntry, h, h']
  | cons e rest ih =>
    obtain ⟨a, b⟩ := e
    by_cases h1 : a = k
    · by_cases h2 : k' = k
      · simp [setEntry, lookupEntry, h1, h2]
      · have h3 : ¬ k = k' := fun e => h2 e.symm
        simp [setEntry, lookupEntry, h1, h2, h3]
    · by_cases h2 : a = k'
      · have h3 : ¬ k' = k := fun e => h1 (h2.trans e)
        simp [setEntry, lookupEntry, h1, h2, h3]
      · simp [setEntry, lookupEntry, h1, h2, ih]

theorem mapLookup_mapAssign {m m' : GoMap} {k v : String} (h : mapAssign m k v = some m')
    (k' : String) : mapLookup m' k' = if k' = k then some v else mapLookup m k' := by
  cases m with
  | none => simp [mapAssign] at h
  | some es =>
    simp only [mapAssign, Option.some.injEq] at h
    subst h
    simp [mapLookup, lookupEntry_setEntry]

theorem mapAssign_isSome {m m' : GoMap} {k v : String} (h : mapAssign m k v = some m') :
    m.isSome ∧ m'.isSome := by
  cases m with
  | none => simp [mapAssign] at h
  | some es =>
    simp only [mapAssign, Option.some.injEq] at h
    subst h
    simp

/-! ## The loop -/

theorem loopBody_eq (node : Node) (st : LoopState) (t : String) :
    loopBody node st t =
      match mapLookup node.Labels (Trim t " \n\r") with
      | none => some st
      | some v =>
        if mapLookup st.labels (Trim t " \n\r") = some v then some st
        else
          match mapAssign st.labels (Trim t " \n\r") v with
          | none => none
          | some m => some { labels := m, needsUpdate := true } := by
  unfold loopBody
  dsimp only
  cases hn : mapLookup node.Labels (Trim t " \n\r") with
  | none => rfl
  | some v =>
    cases hp : mapLookup st.labels (Trim t " \n\r") with
    | none => simp [mapIndex, hn, hp]
    | some w =>
      by_cases hw : w = v
      · simp [mapIndex, hn, hp, hw]
      · simp [mapIndex, hn, hp, hw]

/-- What one iteration can do: leave the state alone because the key calls for no correction,
or assign the host's value and raise `needsUpdate`. -/
theorem loopBody_cases {node : Node} {st st1 : LoopState} {t : String}
    (h : loopBody node st t = some st1) :
    (st1 = st ∧ ¬ needsFix node st.labels (Trim t " \n\r")) ∨
    (∃ v, mapLookup node.Labels (Trim t " \n\r") = some v ∧
      mapLookup st.labels (Trim t " \n\r") ≠ some v ∧
      mapAssign st.labels (Trim t " \n\r") v = some st1.labels ∧ st1.needsUpdate = true) := by
  rw [loopBody_eq] at h
  cases hn : mapLookup node.Labels (Trim t " \n\r") with
  | none =>
    rw [hn] at h
    simp only [Option.some.injEq] at h
    left
    refine ⟨h.symm, ?_⟩
    rintro ⟨v, hv, _⟩
    rw [hn] at hv
    cases hv
  | some v =>
    rw [hn] at h
    by_cases hp : mapLookup st.labels (Trim t " \n\r") = some v
    · simp only [hp, if_true, Option.some.injEq] at h
      left
      refine ⟨h.symm, ?_⟩
      rintro ⟨w, hw, hne⟩
      rw [hn] at hw
      cases hw
      exact hne hp
    · simp only [hp, if_false] at h
      right
      cases ha : mapAssign st.labels (Trim t " \n\r") v with
      | none => rw [ha] at h; cases h
      | some m =>
        rw [ha] at h
        simp only [Option.some.injEq] at h
        subst h
        exact ⟨v, rfl, hp, ha, rfl⟩

/-- An iteration on a key that calls for no correction changes nothing. -/
theorem loopBody_noFix {node : Node} {st : LoopState} {t : String}
    (h : ¬ needsFix node st.labels (Trim t " \n\r")) : loopBody node st t = some st := by
  rw [loopBody_eq]
  cases hn : mapLookup node.Labels (Trim t " \n\r") with
  | none => rfl
  | some v =>
    by_cases hp : mapLookup st.labels (Trim t " \n\r") = some v
    · simp [hp]
    · exact absurd ⟨v, hn, hp⟩ h

/-- The loop changes nothing when no key calls for a correction. -/
theorem loop_noFix (node : Node) (toks : List String) (st : LoopState)
    (h : ∀ k ∈ toks.map (fun t => Trim t " \n\r"), ¬ needsFix node st.labels k) :
    loop node st toks = some st := by
  induction toks with
  | nil => rfl
  | cons t ts ih =>
    have h1 : ¬ needsFix node st.labels (Trim t " \n\r") := h _ (by simp)
    have h2 : ∀ k ∈ ts.map (fun t => Trim t " \n\r"), ¬ needsFix node st.labels k := by
      intro k hk
      exact h k (by simp only [List.map_cons, List.mem_cons]; exact Or.inr hk)
    simp only [loop, loopBody_noFix h1]
    exact ih h2

/-- The label map the loop ends with, key by key: the host's value for a directive key the
host has, the initial binding (or absence) for every other key. -/
theorem loop_labels (node : Node) (toks : List String) :
    ∀ (st st' : LoopState), loop node st toks = some st' →
      ∀ k, mapLookup st'.labels k =
        if k ∈ toks.map (fun t => Trim t " \n\r") ∧ (mapLookup node.Labels k).isSome
        then mapLookup node.Labels k else mapLookup st.labels k := by
  induction toks with
  | nil =>
    intro st st' h k
    simp only [loop, Option.some.injEq] at h
    subst h
    simp
  | cons t ts ih =>
    intro st st' h k
    simp only [loop] at h
    cases hb : loopBody node st t with
    | none => rw [hb] at h; cases h
    | some st1 =>
      rw [hb] at h
      have hi := ih st1 st' h k
      rw [hi]
      rcases loopBody_cases hb with ⟨hst, hnf⟩ | ⟨v, hv, hne, ha, _⟩
      · subst hst
        by_cases hk : k = Trim t " \n\r"
        · subst hk
          cases hs : mapLookup node.Labels (Trim t " \n\r") with
          | none => simp
          | some v =>
            have hp : mapLookup st1.labels (Trim t " \n\r") = some v := by
              by_contra hc
              exact hnf ⟨v, hs, hc⟩
            simp [hp]
        · simp [hk]
      · have hl := mapLookup_mapAssign ha k
        by_cases hk : k = Trim t " \n\r"
        · subst hk
          by_cases hm : Trim t " \n\r" ∈ ts.map (fun t => Trim t " \n\r")
          · simp [hv, hm]
          · simp [hv, hm, hl]
        · simp [hk, hl]

/-- When the loop raises `needsUpdate`: exactly when some directive key calls for a correction. -/
theorem loop_needsUpdate (node : Node) (toks : List String) :
    ∀ (st st' : LoopState), loop node st toks = some st' →
      (st'.needsUpdate = true ↔
        st.needsUpdate = true ∨
          ∃ k ∈ toks.map (fun t => Trim t " \n\r"), needsFix node st.labels k) := by
  induction toks with
  | nil =>
    intro st st' h
    simp only [loop, Option.some.injEq] at h
    subst h
    simp
  | cons t ts ih =>
    intro st st' h
    simp only [loop] at h
    cases hb : loopBody node st t with
    | none => rw [hb] at h; cases h
    | some st1 =>
      rw [hb] at h
      rw [ih st1 st' h]
      rcases loopBody_cases hb with ⟨hst, hnf⟩ | ⟨v, hv, hne, ha, hu⟩
      · subst hst
        constructor
        · rintro (h1 | ⟨k, hk, hf⟩)
          · exact Or.inl h1
          · exact Or.inr ⟨k, by simp only [List.map_cons, List.mem_cons]; exact Or.inr hk, hf⟩
        · rintro (h1 | ⟨k, hk, hf⟩)
          · exact Or.inl h1
          · simp only [List.map_cons, List.mem_cons] at hk
            rcases hk with hk | hk
            · subst hk; exact absurd hf hnf
            · exact Or.inr ⟨k, hk, hf⟩
      · constructor
        · intro _
          exact Or.inr ⟨Trim t " \n\r", by simp, v, hv, hne⟩
        · intro _
          exact Or.inl hu

/-- With an allocated label map the loop never faults, and the map stays allocated. -/
theorem loop_total (node : Node) (toks : List String) :
    ∀ (st : LoopState), st.labels.isSome →
      ∃ st', loop node st toks = some st' ∧ st'.labels.isSome := by
  induction toks with
  | nil => intro st h; exact ⟨st, rfl, h⟩
  | cons t ts ih =>
    intro st h
    cases hl : st.labels with
    | none => rw [hl] at h; cases h
    | some es =>
      by_cases hf : needsFix node st.labels (Trim t " \n\r")
      · obtain ⟨v, hv, hne⟩ := hf
        have hb : loopBody node st t =
            some ⟨some (setEntry (Trim t " \n\r") v es), true⟩ := by
          rw [loopBody_eq, hv]
          dsimp only
          rw [if_neg hne, hl]
          rfl
        obtain ⟨st', h1, h2⟩ := ih ⟨some (setEntry (Trim t " \n\r") v es), true⟩ rfl
        exact ⟨st', by simp only [loop, hb]; exact h1, h2⟩
      · obtain ⟨st', h1, h2⟩ := ih st h
        exact ⟨st', by simp only [loop, loopBody_noFix hf]; exact h1, h2⟩

/-- With the nil label map the loop faults as soon as a directive key is present on the host. -/
theorem loop_fault (node : Node) (toks : List String) (st : LoopState) (hl : st.labels = none)
    (h : ∃ k ∈ toks.map (fun t => Trim t " \n\r"), (mapLookup node.Labels k).isSome) :
    loop node st toks = none := by
  induction toks with
  | nil => simp at h
  | cons t ts ih =>
    by_cases hs : (mapLookup node.Labels (Trim t " \n\r")).isSome
    · obtain ⟨v, hv⟩ := Option.isSome_iff_exists.mp hs
      have hb : loopBody node st t = none := by
        rw [loopBody_eq, hv]
        simp [hl, mapLookup, mapAssign]
      simp only [loop, hb]
    · have hnf : ¬ needsFix node st.labels (Trim t " \n\r") := by
        rintro ⟨v, hv, _⟩
        rw [hv] at hs
        exact hs rfl
      simp only [loop, loopBody_noFix hnf]
      apply ih
      obtain ⟨k, hk, hks⟩ := h
      simp only [List.map_cons, List.mem_cons] at hk
      rcases hk with hk | hk
      · subst hk; exact absurd hks hs
      · exact ⟨k, hk, hks⟩

/-! ## Splitting -/

theorem splitChars_ne_nil (sep : Char) (cs : List Char) : splitChars sep cs ≠ [] := by
  cases cs with
  | nil => simp [splitChars]
  | cons c cs =>
    by_cases h : c = sep
    · simp [splitChars, h]
    · cases hs : splitChars sep cs with
      | nil => simp [splitChars, h, hs]
      | cons t ts => simp [splitChars, h, hs]

theorem Split_ne_nil (v : String) (sep : Char) : Split v sep ≠ [] := by
  simp [Split, splitChars_ne_nil]

/-- The first piece is empty exactly for the empty list and for a list that starts with the
separator. -/
theorem splitChars_head_nil (sep : Char) (cs : List Char) :
    (splitChars sep cs).head? = some [] ↔ cs = [] ∨ cs.head? = some sep := by
  cases cs with
  | nil => simp [splitChars]
  | cons c cs =>
    by_cases h : c = sep
    · simp [splitChars, h]
    · cases hs : splitChars sep cs with
      | nil => simp [splitChars, h, hs]
      | cons t ts => simp [splitChars, h, hs]

/-- The first token of `strings.Split(v, ",")` is `""` exactly when `v` is empty or begins
with the separator. -/
theorem Split_head_empty (v : String) (sep : Char) :
    (Split v sep).head? = some "" ↔ v = "" ∨ v.data.head? = some sep := by
  have h1 : (Split v sep).head? = some "" ↔ (splitChars sep v.data).head? = some [] := by
    unfold Split
    cases splitChars sep v.data with
    | nil => simp
    | cons t ts =>
      simp only [List.map_cons, List.head?_cons, Option.some.injEq]
      constructor
      · intro h
        have := congrArg String.data h
        simpa using this
      · intro h
        subst h
        rfl
  rw [h1, splitChars_head_nil]
  constructor
  · rintro (h | h)
    · left
      cases v with
      | mk d => simp only at h; subst h; rfl
    · exact Or.inr h
  · rintro (h | h)
    · left; subst h; rfl
    · exact Or.inr h

theorem wellFormed_iff (v : String) :
    wellFormed v ↔ ¬ (v = "" ∨ v.data.head? = some ',') := by
  unfold wellFormed
  rw [← Split_head_empty]
  have := Split_ne_nil v ','
  constructor
  · intro h hc; exact h (Or.inr hc)
  · intro h hc
    rcases hc with hc | hc
    · exact this (List.length_eq_zero.mp hc)
    · exact h hc

theorem wellFormed_iff_head (v : String) :
    wellFormed v ↔ (Split v ',').head? ≠ some "" := by
  rw [wellFormed_iff, ← Split_head_empty]

/-- A character list without the separator is a single piece. -/
theorem splitChars_no_sep (sep : Char) (cs : List Char) (h : sep ∉ cs) :
    splitChars sep cs = [cs] := by
  induction cs with
  | nil => rfl
  | cons c cs ih =>
    have hc : ¬ c = sep := fun e => h (by simp [e])
    have hcs : sep ∉ cs := fun e => h (List.mem_cons_of_mem _ e)
    simp [splitChars, hc, ih hcs]

/-! ## Trimming -/

theorem dropWhile_all_append {p : Char → Bool} (pre rest : List Char)
    (h : ∀ c ∈ pre, p c = true) : (pre ++ rest).dropWhile p = rest.dropWhile p := by
  induction pre with
  | nil => rfl
  | cons c cs ih =>
    have hc : p c = true := h c (by simp)
    simp only [List.cons_append, List.dropWhile_cons, hc, if_true]
    exact ih (fun d hd => h d (List.mem_cons_of_mem _ hd))

theorem dropWhile_head_not {p : Char → Bool} (l : List Char)
    (h : ∀ c, l.head? = some c → p c = false) : l.dropWhile p = l := by
  cases l with
  | nil => rfl
  | cons c cs =>
    have hc : p c = false := h c rfl
    simp [List.dropWhile_cons, hc]

/-- The characters `Trim` keeps, with what it removed on each side. -/
theorem Trim_decompose (t cut : String) :
    ∃ pre post : List Char,
      t.data = pre ++ (Trim t cut).data ++ post ∧
      (∀ c ∈ pre, inCutset cut c = true) ∧ (∀ c ∈ post, inCutset cut c = true) := by
  refine ⟨t.data.takeWhile (inCutset cut),
    (((t.data.dropWhile (inCutset cut)).reverse).takeWhile (inCutset cut)).reverse, ?_, ?_, ?_⟩
  · have h1 := List.takeWhile_append_dropWhile (inCutset cut) t.data
    have h2 := List.takeWhile_append_dropWhile (inCutset cut)
      (t.data.dropWhile (inCutset cut)).reverse
    have h3 := congrArg List.reverse h2
    simp only [List.reverse_append, List.reverse_reverse] at h3
    simp only [Trim, List.append_assoc]
    rw [h3]
    exact h1.symm
  · intro c hc
    exact List.mem_takeWhile_imp hc
  · intro c hc
    exact List.mem_takeWhile_imp (List.mem_reverse.mp hc)

/-- A trimmed key does not end with a character of the cutset. -/
theorem Trim_getLast (t cut : String) (c : Char)
    (h : (Trim t cut).data.getLast? = some c) : inCutset cut c = false := by
  simp only [Trim, List.getLast?_reverse] at h
  have := List.head?_dropWhile_not (inCutset cut) (t.data.dropWhile (inCutset cut)).reverse
  rw [h] at this
  simpa using this

/-- A trimmed key does not begin with a character of the cutset. -/
theorem Trim_head (t cut : String) (c : Char)
    (h : (Trim t cut).data.head? = some c) : inCutset cut c = false := by
  have h2 := List.takeWhile_append_dropWhile (inCutset cut)
    (t.data.dropWhile (inCutset cut)).reverse
  have h3 := congrArg List.reverse h2
  simp only [List.reverse_append, List.reverse_reverse] at h3
  have hd : (t.data.dropWhile (inCutset cut)).head? = some c := by
    rw [← h3]
    simp only [Trim] at h
    cases hr : ((t.data.dropWhile (inCutset cut)).reverse.dropWhile (inCutset cut)).reverse with
    | nil => rw [hr] at h; cases h
    | cons a as => rw [hr] at h; simpa using h
  have := List.head?_dropWhile_not (inCutset cut) t.data
  rw [hd] at this
  simpa using this

/-- Trimming removes any surrounding run of cutset characters from a body that neither
begins nor ends with one. -/
theorem Trim_surrounded (cut : String) (pre body post : List Char)
    (hpre : ∀ c ∈ pre, inCutset cut c = true) (hpost : ∀ c ∈ post, inCutset cut c = true)
    (hhead : ∀ c, body.head? = some c → inCutset cut c = false)
    (hlast : ∀ c, body.getLast? = some c → inCutset cut c = false) :
    Trim (String.mk (pre ++ body ++ post)) cut = String.mk body := by
  cases body with
  | nil =>
    have h0 : (pre ++ [] ++ post).dropWhile (inCutset cut) = [] := by
      rw [List.dropWhile_eq_nil_iff]
      intro c hc
      simp only [List.append_nil, List.mem_append] at hc
      rcases hc with hc | hc
      · exact hpre c hc
      · exact hpost c hc
    simp only [Trim]
    rw [h0]
    rfl
  | cons b bs =>
    have h1 : (pre ++ (b :: bs) ++ post).dropWhile (inCutset cut) = (b :: bs) ++ post := by
      rw [List.append_assoc, dropWhile_all_append pre _ hpre]
      apply dropWhile_head_not
      intro c hc
      exact hhead c (by simpa using hc)
    have h2 : ((b :: bs) ++ post).reverse.dropWhile (inCutset cut) = (b :: bs).reverse := by
      rw [List.reverse_append, dropWhile_all_append post.reverse _
        (fun c hc => hpost c (List.mem_reverse.mp hc))]
      apply dropWhile_head_not
      intro c hc
      rw [List.head?_reverse] at hc
      exact hlast c hc
    simp only [Trim]
    rw [h1, h2, List.reverse_reverse]

/-! ## Unfolding an attempt -/

/-- The attempt for a found, host-assigned pod whose annotation passes the check of line 86. -/
theorem Reconcile_wellFormed {s : Store} {req : String} {pod : Pod} {v : String}
    (hp : s.pods req = .ok pod) (hn : pod.NodeName ≠ "")
    (ha : mapLookup pod.Annotations "nodeLabelsInherited" = some v) (hw : wellFormed v) :
    Reconcile s req =
      match loop (nodeAfterGet s pod.NodeName) ⟨pod.Labels, false⟩ (Split v ',') with
      | none => ⟨.fault, [.getPod req, .getNode pod.NodeName], s⟩
      | some st =>
        if st.needsUpdate = true then
          ⟨.returned ⟨false, 0⟩ (s.Update req { pod with Labels := st.labels }).1,
            [.getPod req, .getNode pod.NodeName, .update req { pod with Labels := st.labels }],
            (s.Update req { pod with Labels := st.labels }).2⟩
        else ⟨.returned ⟨false, 0⟩ none, [.getPod req, .getNode pod.NodeName], s⟩ := by
  have hann : pod.Annotations ≠ none := by
    intro hc
    rw [hc] at ha
    simp [mapLookup] at ha
  have hg : ¬ (pod.Annotations = none ∨ pod.NodeName = "") := by
    rintro (h | h)
    · exact hann h
    · exact hn h
  unfold Reconcile
  rw [hp]
  dsimp only
  rw [if_neg hg, ha]
  dsimp only
  unfold wellFormed at hw
  rw [if_neg hw]
  cases loop (nodeAfterGet s pod.NodeName) ⟨pod.Labels, false⟩ (Split v ',') with
  | none => rfl
  | some st =>
    obtain ⟨l, b⟩ := st
    cases b <;> simp

/-- The attempt for a found, host-assigned pod whose annotation fails the check of line 86. -/
theorem Reconcile_malformed {s : Store} {req : String} {pod : Pod} {v : String}
    (hp : s.pods req = .ok pod) (hn : pod.NodeName ≠ "")
    (ha : mapLookup pod.Annotations "nodeLabelsInherited" = some v) (hw : ¬ wellFormed v) :
    Reconcile s req =
      ⟨.returned ⟨false, 0⟩ (some (.errorf ("failed to parse node labels: " ++ v))),
        [.getPod req], s⟩ := by
  have hann : pod.Annotations ≠ none := by
    intro hc
    rw [hc] at ha
    simp [mapLookup] at ha
  have hg : ¬ (pod.Annotations = none ∨ pod.NodeName = "") := by
    rintro (h | h)
    · exact hann h
    · exact hn h
  unfold Reconcile
  rw [hp]
  dsimp only
  rw [if_neg hg, ha]
  dsimp only
  unfold wellFormed at hw
  rw [if_pos (not_not.mp hw)]

/-- The attempt for a found pod that the gates of lines 76-83 turn away. -/
theorem Reconcile_gated {s : Store} {req : String} {pod : Pod}
    (hp : s.pods req = .ok pod)
    (hg : pod.Annotations = none ∨ pod.NodeName = "" ∨
      mapLookup pod.Annotations "nodeLabelsInherited" = none) :
    Reconcile s req = ⟨.returned ⟨false, 0⟩ none, [.getPod req], s⟩ := by
  unfold Reconcile
  rw [hp]
  dsimp only
  by_cases h : pod.Annotations = none ∨ pod.NodeName = ""
  · rw [if_pos h]
  · rw [if_neg h]
    rcases hg with hg | hg | hg
    · exact absurd (Or.inl hg) h
    · exact absurd (Or.inr hg) h
    · rw [hg]

/-- The attempt when the pod read fails. -/
theorem Reconcile_podError {s : Store} {req : String} {e : ClientError}
    (hp : s.pods req = .error e) :
    Reconcile s req =
      ⟨.returned ⟨false, 0⟩ (if IsNotFound e = true then none else some (.client e)),
        [.getPod req], s⟩ := by
  unfold Reconcile
  rw [hp]
  dsimp only
  by_cases h : IsNotFound e = true
  · rw [if_pos h, if_pos h]
  · rw [if_neg h, if_neg h]

theorem Update_accept {s : Store} {key : String} {pod : Pod} (h : s.rejects key pod = none) :
    s.Update key pod = (none, s.put key pod) := by
  simp [Store.Update, h]

theorem put_pods (s : Store) (key : String) (pod : Pod) : (s.put key pod).pods key = .ok pod := by
  simp [Store.put]

theorem put_nodes (s : Store) (key : String) (pod : Pod) : (s.put key pod).nodes = s.nodes := rfl

theorem Update_reject {s : Store} {key : String} {pod : Pod} {e : ClientError}
    (h : s.rejects key pod = some e) : s.Update key pod = (some (.client e), s) := by
  simp [Store.Update, h]

theorem Update_fst_none {s : Store} {key : String} {pod : Pod}
    (h : (s.Update key pod).1 = none) : s.rejects key pod = none := by
  cases hr : s.rejects key pod with
  | none => rfl
  | some e => rw [Update_reject hr] at h; cases h

/-- The six ways through `Reconcile`, each with the whole attempt it produces. -/
theorem Reconcile_cases (s : Store) (req : String) :
    (∃ e, s.pods req = .error e ∧
      Reconcile s req =
        ⟨.returned ⟨false, 0⟩ (if IsNotFound e = true then none else some (.client e)),
          [.getPod req], s⟩) ∨
    (∃ pod, s.pods req = .ok pod ∧
      (pod.Annotations = none ∨ pod.NodeName = "" ∨
        mapLookup pod.Annotations "nodeLabelsInherited" = none) ∧
      Reconcile s req = ⟨.returned ⟨false, 0⟩ none, [.getPod req], s⟩) ∨
    (∃ pod v, s.pods req = .ok pod ∧ pod.NodeName ≠ "" ∧
      mapLookup pod.Annotations "nodeLabelsInherited" = some v ∧ ¬ wellFormed v ∧
      Reconcile s req =
        ⟨.returned ⟨false, 0⟩ (some (.errorf ("failed to parse node labels: " ++ v))),
          [.getPod req], s⟩) ∨
    (∃ pod v, s.pods req = .ok pod ∧ pod.NodeName ≠ "" ∧
      mapLookup pod.Annotations "nodeLabelsInherited" = some v ∧ wellFormed v ∧
      loop (nodeAfterGet s pod.NodeName) ⟨pod.Labels, false⟩ (Split v ',') = none ∧
      Reconcile s req = ⟨.fault, [.getPod req, .getNode pod.NodeName], s⟩) ∨
    (∃ pod v st, s.pods req = .ok pod ∧ pod.NodeName ≠ "" ∧
      mapLookup pod.Annotations "nodeLabelsInherited" = some v ∧ wellFormed v ∧
      loop (nodeAfterGet s pod.NodeName) ⟨pod.Labels, false⟩ (Split v ',') = some st ∧
      st.needsUpdate = false ∧
      Reconcile s req = ⟨.returned ⟨false, 0⟩ none, [.getPod req, .getNode pod.NodeName], s⟩) ∨
    (∃ pod v st, s.pods req = .ok pod ∧ pod.NodeName ≠ "" ∧
      mapLookup pod.Annotations "nodeLabelsInherited" = some v ∧ wellFormed v ∧
      loop (nodeAfterGet s pod.NodeName) ⟨pod.Labels, false⟩ (Split v ',') = some st ∧
      st.needsUpdate = true ∧
      Reconcile s req =
        ⟨.returned ⟨false, 0⟩ (s.Update req { pod with Labels := st.labels }).1,
          [.getPod req, .getNode pod.NodeName, .update req { pod with Labels := st.labels }],
          (s.Update req { pod with Labels := st.labels }).2⟩) := by
  cases hp : s.pods req with
  | error e => exact Or.inl ⟨e, rfl, Reconcile_podError hp⟩
  | ok pod =>
    right
    by_cases hn : pod.NodeName = ""
    · exact Or.inl ⟨pod, rfl, Or.inr (Or.inl hn), Reconcile_gated hp (Or.inr (Or.inl hn))⟩
    · cases ha : mapLookup pod.Annotations "nodeLabelsInherited" with
      | none =>
        exact Or.inl ⟨pod, rfl, Or.inr (Or.inr ha), Reconcile_gated hp (Or.inr (Or.inr ha))⟩
      | some v =>
        right
        by_cases hw : wellFormed v
        · right
          have hr := Reconcile_wellFormed hp hn ha hw
          cases hl : loop (nodeAfterGet s pod.NodeName) ⟨pod.Labels, false⟩ (Split v ',') with
          | none =>
            rw [hl] at hr
            exact Or.inl ⟨pod, v, rfl, hn, ha, hw, hl, hr⟩
          | some st =>
            rw [hl] at hr
            right
            cases hu : st.needsUpdate with
            | false =>
              simp only [hu, Bool.false_eq_true, if_false] at hr
              exact Or.inl ⟨pod, v, st, rfl, hn, ha, hw, hl, hu, hr⟩
            | true =>
              simp only [hu, if_true] at hr
              exact Or.inr ⟨pod, v, st, rfl, hn, ha, hw, hl, hu, hr⟩
        · exact Or.inl ⟨pod, v, rfl, hn, ha, hw, Reconcile_malformed hp hn ha hw⟩

theorem Reconcile_fault {s : Store} {req : String} {pod : Pod} {v : String}
    (hp : s.pods req = .ok pod) (hn : pod.NodeName ≠ "")
    (ha : mapLookup pod.Annotations "nodeLabelsInherited" = some v) (hw : wellFormed v)
    (hl : loop (nodeAfterGet s pod.NodeName) ⟨pod.Labels, false⟩ (Split v ',') = none) :
    Reconcile s req = ⟨.fault, [.getPod req, .getNode pod.NodeName], s⟩ := by
  rw [Reconcile_wellFormed hp hn ha hw, hl]

theorem Reconcile_noUpdate {s : Store} {req : String} {pod : Pod} {v : String} {st : LoopState}
    (hp : s.pods req = .ok pod) (hn : pod.NodeName ≠ "")
    (ha : mapLookup pod.Annotations "nodeLabelsInherited" = some v) (hw : wellFormed v)
    (hl : loop (nodeAfterGet s pod.NodeName) ⟨pod.Labels, false⟩ (Split v ',') = some st)
    (hu : st.needsUpdate = false) :
    Reconcile s req =
      ⟨.returned ⟨false, 0⟩ none, [.getPod req, .getNode pod.NodeName], s⟩ := by
  rw [Reconcile_wellFormed hp hn ha hw, hl]
  simp [hu]

theorem Reconcile_update {s : Store} {req : String} {pod : Pod} {v : String} {st : LoopState}
    (hp : s.pods req = .ok pod) (hn : pod.NodeName ≠ "")
    (ha : mapLookup pod.Annotations "nodeLabelsInherited" = some v) (hw : wellFormed v)
    (hl : loop (nodeAfterGet s pod.NodeName) ⟨pod.Labels, false⟩ (Split v ',') = some st)
    (hu : st.needsUpdate = true) :
    Reconcile s req =
      ⟨.returned ⟨false, 0⟩ (s.Update req { pod with Labels := st.labels }).1,
        [.getPod req, .getNode pod.NodeName, .update req { pod with Labels := st.labels }],
        (s.Update req { pod with Labels := st.labels }).2⟩ := by
  rw [Reconcile_wellFormed hp hn ha hw, hl]
  simp [hu]

/-- After an attempt that returned without error, the stored pod carries the host's value
under every directive key the host has. -/
theorem stored_matches_host {s : Store} {req : String} {pod : Pod} {v : String}
    (hp : s.pods req = .ok pod) (hn : pod.NodeName ≠ "")
    (ha : mapLookup pod.Annotations "nodeLabelsInherited" = some v) (hw : wellFormed v)
    (hret : ∃ res, (Reconcile s req).ret = .returned res none) :
    ∀ k ∈ directiveKeys v, ∀ val,
      mapLookup (nodeAfterGet s pod.NodeName).Labels k = some val →
      ∃ p, (Reconcile s req).store.pods req = .ok p ∧ mapLookup p.Labels k = some val := by
  intro k hk val hval
  obtain ⟨res, hret⟩ := hret
  cases hl : loop (nodeAfterGet s pod.NodeName) ⟨pod.Labels, false⟩ (Split v ',') with
  | none =>
    rw [Reconcile_fault hp hn ha hw hl] at hret
    cases hret
  | some st =>
    cases hu : st.needsUpdate with
    | false =>
      rw [Reconcile_noUpdate hp hn ha hw hl hu]
      refine ⟨pod, hp, ?_⟩
      have hnu := (loop_needsUpdate _ _ _ _ hl).not.mp (by simp [hu])
      by_contra hc
      exact hnu (Or.inr ⟨k, hk, val, hval, hc⟩)
    | true =>
      rw [Reconcile_update hp hn ha hw hl hu] at hret ⊢
      simp only [Return.returned.injEq] at hret
      have hacc := Update_fst_none hret.2
      rw [Update_accept hacc]
      refine ⟨{ pod with Labels := st.labels }, put_pods _ _ _, ?_⟩
      have hlab := loop_labels _ _ _ _ hl k
      have hk' : k ∈ (Split v ',').map (fun t => Trim t " \n\r") := hk
      simp only [hk', hval, Option.isSome_some, and_self, if_true] at hlab
      exact hlab

/-- An attempt writes nothing and leaves the store alone, or issues the one update of line 110
with the label map the loop produced. -/
theorem Reconcile_writes (s : Store) (req : String) :
    ((Reconcile s req).store = s ∧ writes (Reconcile s req).calls = []) ∨
    (∃ pod v st, s.pods req = .ok pod ∧ pod.NodeName ≠ "" ∧
      mapLookup pod.Annotations "nodeLabelsInherited" = some v ∧ wellFormed v ∧
      loop (nodeAfterGet s pod.NodeName) ⟨pod.Labels, false⟩ (Split v ',') = some st ∧
      st.needsUpdate = true ∧
      writes (Reconcile s req).calls = [{ pod with Labels := st.labels }] ∧
      (Reconcile s req).store = (s.Update req { pod with Labels := st.labels }).2 ∧
      (Reconcile s req).ret =
        .returned ⟨false, 0⟩ (s.Update req { pod with Labels := st.labels }).1) := by
  rcases Reconcile_cases s req with ⟨e, _, h⟩ | ⟨pod, _, _, h⟩ | ⟨pod, v, _, _, _, _, h⟩ |
    ⟨pod, v, _, _, _, _, _, h⟩ | ⟨pod, v, st, _, _, _, _, _, _, h⟩ |
    ⟨pod, v, st, hp, hn, ha, hw, hl, hu, h⟩
  · left; rw [h]; exact ⟨rfl, rfl⟩
  · left; rw [h]; exact ⟨rfl, rfl⟩
  · left; rw [h]; exact ⟨rfl, rfl⟩
  · left; rw [h]; exact ⟨rfl, rfl⟩
  · left; rw [h]; exact ⟨rfl, rfl⟩
  · right
    refine ⟨pod, v, st, hp, hn, ha, hw, hl, hu, ?_, ?_, ?_⟩
    · rw [h]; rfl
    · rw [h]
    · rw [h]

/-- The pod a store holds under `key` after an update call: the pod passed when the update
was accepted, the pod held before otherwise. -/
theorem Update_pods (s : Store) (key : String) (pod : Pod) :
    (s.Update key pod).2.pods key = .ok pod ∨ (s.Update key pod).2 = s := by
  cases hr : s.rejects key pod with
  | none => left; rw [Update_accept hr]; exact put_pods _ _ _
  | some e => right; rw [Update_reject hr]

/-- Every pod written by an attempt, and the pod stored afterwards, has the label map the
loop describes: the host's value under a directive key the host has, the binding read
everywhere else. -/
theorem written_labels {s : Store} {req : String} {pod : Pod} (hp : s.pods req = .ok pod)
    (k : String) :
    (∀ p ∈ writes (Reconcile s req).calls,
      mapLookup p.Labels k =
        if k ∈ podDirectiveKeys pod ∧ (mapLookup (nodeAfterGet s pod.NodeName).Labels k).isSome
        then mapLookup (nodeAfterGet s pod.NodeName).Labels k else mapLookup pod.Labels k) ∧
    (∀ p, (Reconcile s req).store.pods req = .ok p →
      mapLookup p.Labels k = mapLookup pod.Labels k ∨
      (k ∈ podDirectiveKeys pod ∧ (mapLookup (nodeAfterGet s pod.NodeName).Labels k).isSome ∧
        mapLookup p.Labels k = mapLookup (nodeAfterGet s pod.NodeName).Labels k)) := by
  rcases Reconcile_writes s req with ⟨hs, hw⟩ | ⟨pod0, v, st, hp0, hn, ha, hwf, hl, hu, hw, hs, _⟩
  · rw [hs, hw]
    refine ⟨by simp, ?_⟩
    intro p hp'
    rw [hp] at hp'
    cases hp'
    exact Or.inl rfl
  · rw [hp] at hp0
    cases hp0
    have hlab := loop_labels _ _ _ _ hl k
    have hkeys : podDirectiveKeys pod = (Split v ',').map (fun t => Trim t " \n\r") := by
      simp [podDirectiveKeys, ha, directiveKeys]
    rw [hw, hs, hkeys]
    constructor
    · intro p hmem
      simp only [List.mem_singleton] at hmem
      subst hmem
      exact hlab
    · intro p hp'
      rcases Update_pods s req { pod with Labels := st.labels } with hacc | hrej
      · rw [hacc] at hp'
        cases hp'
        by_cases hc : k ∈ (Split v ',').map (fun t => Trim t " \n\r") ∧
            (mapLookup (nodeAfterGet s pod.NodeName).Labels k).isSome
        · right
          rw [if_pos hc] at hlab
          exact ⟨hc.1, hc.2, hlab⟩
        · left
          rw [if_neg hc] at hlab
          exact hlab
      · rw [hrej, hp] at hp'
        cases hp'
        exact Or.inl rfl

/-- A label map in which every directive key the host has already carries the host's value
is a fixed point of the loop. -/
theorem loop_fixed_point {node : Node} {toks : List String} {st0 st : LoopState}
    (hl : loop node st0 toks = some st) (b : Bool) :
    loop node ⟨st.labels, b⟩ toks = some ⟨st.labels, b⟩ := by
  apply loop_noFix
  intro k hk
  rintro ⟨val, hval, hne⟩
  have hlab := loop_labels _ _ _ _ hl k
  simp only [hk, hval, Option.isSome_some, and_self, if_true] at hlab
  exact hne hlab

/-- Running the attempt again on the store left by an attempt whose update was accepted
writes nothing and leaves that store as it is. -/
theorem second_run {s : Store} {req : String}
    (hacc : ∀ p ∈ writes (Reconcile s req).calls, s.rejects req p = none) :
    Reconcile (Reconcile s req).store req =
      ⟨(Reconcile (Reconcile s req).store req).ret,
        (Reconcile (Reconcile s req).store req).calls, (Reconcile s req).store⟩ ∧
    writes (Reconcile (Reconcile s req).store req).calls = [] := by
  rcases Reconcile_writes s req with ⟨hs, hw⟩ | ⟨pod, v, st, hp, hn, ha, hwf, hl, hu, hw, hs, _⟩
  · rw [hs]
    constructor
    · have : (Reconcile s req).store = s := hs
      cases hr : Reconcile s req with
      | mk r c st =>
        rw [hr] at this
        simp only at this
        rw [this]
    · exact hw
  · have hrej : s.rejects req { pod with Labels := st.labels } = none :=
      hacc _ (by rw [hw]; simp)
    rw [hs, Update_accept hrej]
    have hp1 : (s.put req { pod with Labels := st.labels }).pods req =
        .ok { pod with Labels := st.labels } := put_pods _ _ _
    have hl1 : loop (nodeAfterGet (s.put req { pod with Labels := st.labels }) pod.NodeName)
        ⟨st.labels, false⟩ (Split v ',') = some ⟨st.labels, false⟩ :=
      loop_fixed_point hl false
    rw [Reconcile_noUpdate hp1 hn ha hwf hl1 rfl]
    exact ⟨rfl, rfl⟩

/-- With a host object that has no label map the loop changes nothing. -/
theorem loop_zero_node (st : LoopState) (toks : List String) :
    loop { Labels := none } st toks = some st := by
  apply loop_noFix
  intro k _
  rintro ⟨v, hv, _⟩
  simp [mapLookup] at hv

/-- The attempt for a found, host-assigned pod with a well-formed annotation whose host read
fails: success after the two reads, nothing written. -/
theorem Reconcile_nodeError {s : Store} {req : String} {pod : Pod} {v : String}
    {ce : ClientError} (hp : s.pods req = .ok pod) (hn : pod.NodeName ≠ "")
    (ha : mapLookup pod.Annotations "nodeLabelsInherited" = some v) (hw : wellFormed v)
    (he : s.nodes pod.NodeName = .error ce) :
    Reconcile s req =
      ⟨.returned ⟨false, 0⟩ none, [.getPod req, .getNode pod.NodeName], s⟩ := by
  have hnode : nodeAfterGet s pod.NodeName = { Labels := none } := by
    simp [nodeAfterGet, he]
  have hl : loop (nodeAfterGet s pod.NodeName) ⟨pod.Labels, false⟩ (Split v ',') =
      some ⟨pod.Labels, false⟩ := by
    rw [hnode]
    exact loop_zero_node _ _
  exact Reconcile_noUpdate hp hn ha hw hl rfl

/-- The error an attempt returns, read off the six ways through `Reconcile`. -/
theorem returned_error (s : Store) (req : String) (e : Error) :
    (∃ res, (Reconcile s req).ret = .returned res (some e)) ↔
      (∃ ce, s.pods req = .error ce ∧ IsNotFound ce = false ∧ e = .client ce) ∨
      (∃ pod v, s.pods req = .ok pod ∧ pod.NodeName ≠ "" ∧
        mapLookup pod.Annotations "nodeLabelsInherited" = some v ∧ ¬ wellFormed v ∧
        e = .errorf ("failed to parse node labels: " ++ v)) ∨
      (∃ p ce, p ∈ writes (Reconcile s req).calls ∧ s.rejects req p = some ce ∧
        e = .client ce) := by
  constructor
  · rintro ⟨res, hret⟩
    rcases Reconcile_cases s req with ⟨ce, hp, h⟩ | ⟨pod, _, _, h⟩ | ⟨pod, v, hp, hn, ha, hw, h⟩ |
      ⟨pod, v, _, _, _, _, _, h⟩ | ⟨pod, v, st, _, _, _, _, _, _, h⟩ |
      ⟨pod, v, st, hp, hn, ha, hw, hl, hu, h⟩
    · left
      rw [h] at hret
      simp only [Return.returned.injEq] at hret
      by_cases hnf : IsNotFound ce = true
      · rw [if_pos hnf] at hret
        cases hret.2
      · rw [if_neg hnf] at hret
        exact ⟨ce, hp, by simpa using hnf, (Option.some.inj hret.2).symm⟩
    · rw [h] at hret
      simp at hret
    · right; left
      rw [h] at hret
      simp only [Return.returned.injEq] at hret
      exact ⟨pod, v, hp, hn, ha, hw, (Option.some.inj hret.2).symm⟩
    · rw [h] at hret
      cases hret
    · rw [h] at hret
      simp at hret
    · right; right
      rw [h] at hret ⊢
      simp only [Return.returned.injEq] at hret
      cases hr : s.rejects req { pod with Labels := st.labels } with
      | none =>
        rw [Update_accept hr] at hret
        cases hret.2
      | some ce =>
        rw [Update_reject hr] at hret
        exact ⟨_, ce, by simp [writes], hr, (Option.some.inj hret.2).symm⟩
  · rintro (⟨ce, hp, hnf, he⟩ | ⟨pod, v, hp, hn, ha, hw, he⟩ | ⟨p, ce, hmem, hr, he⟩)
    · rw [Reconcile_podError hp]
      subst he
      simp [hnf]
    · rw [Reconcile_malformed hp hn ha hw]
      subst he
      simp
    · rcases Reconcile_writes s req with ⟨_, hw⟩ | ⟨pod, v, st, _, _, _, _, _, _, hw, _, hret⟩
      · rw [hw] at hmem
        cases hmem
      · rw [hw] at hmem
        simp only [List.mem_singleton] at hmem
        subst hmem
        rw [hret, Update_reject hr]
        subst he
        simp

/-- Whatever an attempt returns, the result is the zero `ctrl.Result`. -/
theorem returned_result (s : Store) (req : String) (res : Result) (err : Option Error)
    (h : (Reconcile s req).ret = .returned res err) : res = ⟨false, 0⟩ := by
  rcases Reconcile_cases s req with ⟨ce, hp, h'⟩ | ⟨pod, _, _, h'⟩ | ⟨pod, v, _, _, _, _, h'⟩ |
    ⟨pod, v, _, _, _, _, _, h'⟩ | ⟨pod, v, st, _, _, _, _, _, _, h'⟩ |
    ⟨pod, v, st, _, _, _, _, _, _, h'⟩
  all_goals
    rw [h'] at h
    cases h <;> rfl

/-- The cutset of line 97 holds the space, the newline and the carriage return, nothing else. -/
theorem inCutset_iff (c : Char) :
    inCutset " \n\r" c = true ↔ c = ' ' ∨ c = '\n' ∨ c = '\r' := by
  show [' ', '\n', '\r'].contains c = true ↔ _
  simp

theorem inCutset_false_iff (c : Char) :
    inCutset " \n\r" c = false ↔ c ≠ ' ' ∧ c ≠ '\n' ∧ c ≠ '\r' := by
  rw [← Bool.not_eq_true, inCutset_iff]
  simp

/-- Trimming a trimmed token changes nothing. -/
theorem Trim_idempotent (t cut : String) : Trim (Trim t cut) cut = Trim t cut := by
  have h := Trim_surrounded cut [] (Trim t cut).data [] (by simp) (by simp)
    (Trim_head t cut) (Trim_getLast t cut)
  simpa using h

/-- An iteration of the loop sees a token only through its trimmed form. -/
theorem loopBody_trimmed (node : Node) (st : LoopState) (t : String) :
    loopBody node st t = loopBody node st (Trim t " \n\r") := by
  rw [loopBody_eq, loopBody_eq, Trim_idempotent]

/-- The only directive key of a value made of a comma-free body between runs of cutset
characters is the body. -/
theorem directiveKeys_surrounded (pre body post : List Char)
    (hpre : ∀ c ∈ pre, c = ' ' ∨ c = '\n' ∨ c = '\r')
    (hpost : ∀ c ∈ post, c = ' ' ∨ c = '\n' ∨ c = '\r')
    (hcomma : ',' ∉ body)
    (hhead : ∀ c, body.head? = some c → c ≠ ' ' ∧ c ≠ '\n' ∧ c ≠ '\r')
    (hlast : ∀ c, body.getLast? = some c → c ≠ ' ' ∧ c ≠ '\n' ∧ c ≠ '\r') :
    directiveKeys (String.mk (pre ++ body ++ post)) = [String.mk body] := by
  have hsep : ',' ∉ pre ++ body ++ post := by
    simp only [List.mem_append, not_or]
    refine ⟨⟨?_, hcomma⟩, ?_⟩
    · intro hc
      rcases hpre _ hc with h | h | h <;> cases h
    · intro hc
      rcases hpost _ hc with h | h | h <;> cases h
  simp only [directiveKeys, Split, splitChars_no_sep _ _ hsep, List.map_cons, List.map_nil]
  rw [Trim_surrounded " \n\r" pre body post
    (fun c hc => (inCutset_iff c).mpr (hpre c hc))
    (fun c hc => (inCutset_iff c).mpr (hpost c hc))
    (fun c hc => (inCutset_false_iff c).mpr (hhead c hc))
    (fun c hc => (inCutset_false_iff c).mpr (hlast c hc))]

/-- A value made of a comma-free, non-empty body between runs of cutset characters passes
the check of line 86. -/
theorem wellFormed_surrounded (pre body post : List Char)
    (hpre : ∀ c ∈ pre, c = ' ' ∨ c = '\n' ∨ c = '\r') (hcomma : ',' ∉ body)
    (hne : body ≠ []) : wellFormed (String.mk (pre ++ body ++ post)) := by
  rw [wellFormed_iff]
  rintro (h | h)
  · have := congrArg String.data h
    simp only [List.append_assoc] at this
    have h2 : pre ++ (body ++ post) = [] := this
    simp only [List.append_eq_nil] at h2
    exact hne h2.2.1
  · simp only at h
    cases pre with
    | nil =>
      cases body with
      | nil => exact hne rfl
      | cons b bs =>
        simp only [List.nil_append, List.cons_append, List.head?_cons, Option.some.injEq] at h
        exact hcomma (by simp [h])
    | cons a as =>
      simp only [List.cons_append, List.head?_cons, Option.some.injEq] at h
      rcases hpre a (by simp) with h' | h' | h' <;> rw [h] at h' <;> cases h'

/-- A found, host-assigned pod without a label map faults as soon as one directive key of a
well-formed annotation is present on the host. -/
theorem nil_labels_fault {s : Store} {req : String} {pod : Pod} {v : String}
    (hp : s.pods req = .ok pod) (hn : pod.NodeName ≠ "") (hnil : pod.Labels = none)
    (ha : mapLookup pod.Annotations "nodeLabelsInherited" = some v) (hw : wellFormed v)
    (hk : ∃ k ∈ directiveKeys v, (mapLookup (nodeAfterGet s pod.NodeName).Labels k).isSome) :
    (Reconcile s req).ret = .fault := by
  have hl : loop (nodeAfterGet s pod.NodeName) ⟨pod.Labels, false⟩ (Split v ',') = none :=
    loop_fault _ _ _ hnil hk
  rw [Reconcile_fault hp hn ha hw hl]

theorem dropWhile_append_last {p : Char → Bool} (l : List Char) (c : Char)
    (hc : p c = false) : (l ++ [c]).dropWhile p = l.dropWhile p ++ [c] := by
  induction l with
  | nil => simp [List.dropWhile_cons, hc]
  | cons a as ih =>
    by_cases ha : p a = true
    · simp only [List.cons_append, List.dropWhile_cons, ha, if_true]
      exact ih
    · simp [List.dropWhile_cons, ha]

/-- A first character outside the cutset is kept by `Trim`. -/
theorem Trim_head_kept (t cut : String) (c : Char) (h : t.data.head? = some c)
    (hc : inCutset cut c = false) : (Trim t cut).data.head? = some c := by
  obtain ⟨d⟩ := t
  cases d with
  | nil => cases h
  | cons a cs =>
    simp only [List.head?_cons, Option.some.injEq] at h
    subst h
    have h1 : (a :: cs).dropWhile (inCutset cut) = a :: cs := by
      simp [List.dropWhile_cons, hc]
    simp only [Trim]
    rw [h1, List.reverse_cons, dropWhile_append_last _ _ hc]
    simp

/-- A last character outside the cutset is kept by `Trim`. -/
theorem Trim_getLast_kept (t cut : String) (c : Char) (h : t.data.getLast? = some c)
    (hc : inCutset cut c = false) : (Trim t cut).data.getLast? = some c := by
  have hr : t.data.reverse.head? = some c := by
    rw [List.head?_reverse]; exact h
  cases hrev : t.data.reverse with
  | nil => rw [hrev] at hr; cases hr
  | cons a r =>
    rw [hrev] at hr
    simp only [List.head?_cons, Option.some.injEq] at hr
    subst hr
    have hd : t.data = r.reverse ++ [a] := by
      have := congrArg List.reverse hrev
      simpa using this
    have h2 : (a :: (r.reverse.dropWhile (inCutset cut)).reverse).dropWhile (inCutset cut) =
        a :: (r.reverse.dropWhile (inCutset cut)).reverse := by
      simp [List.dropWhile_cons, hc]
    simp only [Trim]
    rw [hd, dropWhile_append_last _ _ hc, List.reverse_append, List.reverse_singleton,
      List.singleton_append, h2]
    simp

/-- The attempt for a found, host-assigned pod with a well-formed annotation none of whose
directive keys the host object has: success after the two reads, nothing written. -/
theorem Reconcile_noKeys {s : Store} {req : String} {pod : Pod} {v : String}
    (hp : s.pods req = .ok pod) (hn : pod.NodeName ≠ "")
    (ha : mapLookup pod.Annotations "nodeLabelsInherited" = some v) (hw : wellFormed v)
    (hk : ∀ k ∈ directiveKeys v, mapLookup (nodeAfterGet s pod.NodeName).Labels k = none) :
    Reconcile s req =
      ⟨.returned ⟨false, 0⟩ none, [.getPod req, .getNode pod.NodeName], s⟩ := by
  have hl : loop (nodeAfterGet s pod.NodeName) ⟨pod.Labels, false⟩ (Split v ',') =
      some ⟨pod.Labels, false⟩ := by
    apply loop_noFix
    intro k hmem
    rintro ⟨val, hval, _⟩
    rw [hk k hmem] at hval
    cases hval
  exact Reconcile_noUpdate hp hn ha hw hl rfl

/-- With an allocated label map, a directive key that calls for a correction makes the attempt
issue its one update. -/
theorem one_write_of_needsFix {s : Store} {req : String} {pod : Pod} {v : String}
    (hp : s.pods req = .ok pod) (hn : pod.NodeName ≠ "") (hlab : pod.Labels ≠ none)
    (ha : mapLookup pod.Annotations "nodeLabelsInherited" = some v) (hw : wellFormed v)
    (hfix : ∃ k ∈ directiveKeys v, needsFix (nodeAfterGet s pod.NodeName) pod.Labels k) :
    (writes (Reconcile s req).calls).length = 1 := by
  obtain ⟨st, hl, _⟩ := loop_total (nodeAfterGet s pod.NodeName) (Split v ',')
    ⟨pod.Labels, false⟩ (Option.ne_none_iff_isSome.mp hlab)
  have hu : st.needsUpdate = true := (loop_needsUpdate _ _ _ _ hl).mpr (Or.inr hfix)
  rw [Reconcile_update hp hn ha hw hl hu]
  rfl

/-! ## The claims -/

/-- C1: for a found pod with a host assigned, an allocated label map and a well-formed
`nodeLabelsInherited` annotation, and a host whose read succeeds, an attempt that returns
without error leaves in the store a pod whose label equals the host's label value under
every directive key (trimmed token) the host has. -/
theorem C1_inherited_labels_equal_host (s : Store) (req : String) (pod : Pod) (node : Node)
    (v : String) (hfound : s.pods req = .ok pod) (hhost : pod.NodeName ≠ "")
    (_hlabels : pod.Labels ≠ none)
    (hann : mapLookup pod.Annotations "nodeLabelsInherited" = some v) (hwf : wellFormed v)
    (hnode : s.nodes pod.NodeName = .ok node)
    (hret : ∃ res, (Reconcile s req).ret = .returned res none) :
    ∀ k ∈ directiveKeys v, ∀ val, mapLookup node.Labels k = some val →
      ∃ p, (Reconcile s req).store.pods req = .ok p ∧ mapLookup p.Labels k = some val := by
  have hn : nodeAfterGet s pod.NodeName = node := by simp [nodeAfterGet, hnode]
  have h := stored_matches_host hfound hhost hann hwf hret
  rw [hn] at h
  exact h

/-- C1 at a concrete store: the stale `zone` of `podStale` is replaced by the host value. -/
theorem C1_witness :
    ∃ p, (Reconcile (storeOf podStale nodeZone) "default/web").store.pods "default/web" = .ok p ∧
      mapLookup p.Labels "zone" = some "us-east-1a" :=
  C1_inherited_labels_equal_host (storeOf podStale nodeZone) "default/web" podStale nodeZone
    "zone" rfl (by decide) (by decide) (by decide) (by decide) rfl ⟨⟨false, 0⟩, by decide⟩
    "zone" (by decide) "us-east-1a" (by decide)

/-- C2: for a pod that was read and a label key `k` that is not a directive key, or that the
host object of the attempt does not have, every pod passed to an update and the pod stored
after the attempt bind `k` exactly as the pod read did (same presence, same value); and no
key bound in the pod read is unbound in a pod written or in the pod stored afterwards. -/
theorem C2_labels_outside_directive_unchanged (s : Store) (req : String) (pod : Pod)
    (hfound : s.pods req = .ok pod) (k : String)
    (hk : k ∉ podDirectiveKeys pod ∨
      mapLookup (nodeAfterGet s pod.NodeName).Labels k = none) :
    (∀ p ∈ writes (Reconcile s req).calls, mapLookup p.Labels k = mapLookup pod.Labels k) ∧
    (∀ p, (Reconcile s req).store.pods req = .ok p →
      mapLookup p.Labels k = mapLookup pod.Labels k) ∧
    (∀ k', (mapLookup pod.Labels k').isSome →
      (∀ p ∈ writes (Reconcile s req).calls, (mapLookup p.Labels k').isSome) ∧
      (∀ p, (Reconcile s req).store.pods req = .ok p → (mapLookup p.Labels k').isSome)) := by
  have hnot : ¬ (k ∈ podDirectiveKeys pod ∧
      (mapLookup (nodeAfterGet s pod.NodeName).Labels k).isSome) := by
    rintro ⟨h1, h2⟩
    rcases hk with hk | hk
    · exact hk h1
    · rw [hk] at h2; cases h2
  refine ⟨?_, ?_, ?_⟩
  · intro p hp
    rw [(written_labels hfound k).1 p hp, if_neg hnot]
  · intro p hp
    rcases (written_labels hfound k).2 p hp with h | ⟨h1, h2, _⟩
    · exact h
    · exact absurd ⟨h1, h2⟩ hnot
  · intro k' hsome
    constructor
    · intro p hp
      rw [(written_labels hfound k').1 p hp]
      split
      · next hc => exact hc.2
      · exact hsome
    · intro p hp
      rcases (written_labels hfound k').2 p hp with h | ⟨_, h2, h3⟩
      · rw [h]; exact hsome
      · rw [h3]; exact h2

/-- C2 at a concrete store: the update issued for `podStale` keeps its own label `app`. -/
theorem C2_witness :
    writes (Reconcile (storeOf podStale nodeZone) "default/web").calls ≠ [] ∧
    (∀ p ∈ writes (Reconcile (storeOf podStale nodeZone) "default/web").calls,
      mapLookup p.Labels "app" = some "web") :=
  ⟨by decide,
   (C2_labels_outside_directive_unchanged (storeOf podStale nodeZone) "default/web" podStale rfl
      "app" (Or.inl (by decide))).1⟩

/-- C4: for a found pod with no annotation map, or without the `nodeLabelsInherited`
annotation, or with an empty host name, the attempt returns the empty result with a nil
error, issues no update and no node read and leaves the store as it was, for every label map
of the pod and every store. -/
theorem C4_ineligible_pod_no_write (s : Store) (req : String) (pod : Pod)
    (hfound : s.pods req = .ok pod)
    (hgate : pod.Annotations = none ∨
      mapLookup pod.Annotations "nodeLabelsInherited" = none ∨ pod.NodeName = "") :
    (Reconcile s req).ret = .returned ⟨false, 0⟩ none ∧
    writes (Reconcile s req).calls = [] ∧
    (Reconcile s req).calls = [.getPod req] ∧
    (Reconcile s req).store = s := by
  have hg : pod.Annotations = none ∨ pod.NodeName = "" ∨
      mapLookup pod.Annotations "nodeLabelsInherited" = none := by
    rcases hgate with h | h | h
    · exact Or.inl h
    · exact Or.inr (Or.inr h)
    · exact Or.inr (Or.inl h)
  rw [Reconcile_gated hfound hg]
  exact ⟨rfl, rfl, rfl, rfl⟩

/-- C4 at a concrete store: the unscheduled pod gets success and no update. -/
theorem C4_witness :
    (Reconcile (storeOf podUnscheduled nodeZone) "default/web").ret = .returned ⟨false, 0⟩ none ∧
    writes (Reconcile (storeOf podUnscheduled nodeZone) "default/web").calls = [] :=
  let h := C4_ineligible_pod_no_write (storeOf podUnscheduled nodeZone) "default/web"
    podUnscheduled rfl (Or.inr (Or.inr rfl))
  ⟨h.1, h.2.1⟩

/-- C3: when every update issued by a first attempt is accepted by the store, a second
attempt for the same key on the store the first one left (nothing else changed it) leaves
that store, and so the pod stored under the key, exactly as it was, and issues no update. -/
theorem C3_second_attempt_changes_nothing (s : Store) (req : String)
    (hacc : ∀ p ∈ writes (Reconcile s req).calls, s.rejects req p = none) :
    (Reconcile (Reconcile s req).store req).store = (Reconcile s req).store ∧
    (Reconcile (Reconcile s req).store req).store.pods req = (Reconcile s req).store.pods req ∧
    writes (Reconcile (Reconcile s req).store req).calls = [] := by
  have h := second_run hacc
  have hst : (Reconcile (Reconcile s req).store req).store = (Reconcile s req).store := by
    rw [h.1]
  exact ⟨hst, by rw [hst], h.2⟩

/-- C3 at a concrete store: the first attempt for `podStale` writes, the second does not. -/
theorem C3_witness :
    writes (Reconcile (storeOf podStale nodeZone) "default/web").calls ≠ [] ∧
    writes (Reconcile (Reconcile (storeOf podStale nodeZone) "default/web").store
      "default/web").calls = [] :=
  ⟨by decide,
   (C3_second_attempt_changes_nothing (storeOf podStale nodeZone) "default/web"
      (fun _ _ => rfl)).2.2⟩

/-- C5: an attempt issues at most one update. For a found pod with a host assigned, an
allocated label map and a well-formed directive it issues exactly one update if and only if
some directive key has a value on the host object of the attempt that the pod does not hold
under that key (the key is missing or bound to another value). The pod of that update keeps
the annotations and host name, carries the host's value under every directive key the host
has, and binds every other key as the pod read did. When no directive key calls for a
correction no update is issued and the attempt returns the empty result with a nil error. -/
theorem C5_one_update_iff_correction (s : Store) (req : String) :
    (writes (Reconcile s req).calls).length ≤ 1 ∧
    ∀ pod v, s.pods req = .ok pod → pod.NodeName ≠ "" → pod.Labels ≠ none →
      mapLookup pod.Annotations "nodeLabelsInherited" = some v → wellFormed v →
      ((writes (Reconcile s req).calls).length = 1 ↔
        ∃ k ∈ directiveKeys v, ∃ val,
          mapLookup (nodeAfterGet s pod.NodeName).Labels k = some val ∧
          mapLookup pod.Labels k ≠ some val) ∧
      (∀ p ∈ writes (Reconcile s req).calls,
        p.Annotations = pod.Annotations ∧ p.NodeName = pod.NodeName ∧
        (∀ k ∈ directiveKeys v, ∀ val,
          mapLookup (nodeAfterGet s pod.NodeName).Labels k = some val →
          mapLookup p.Labels k = some val) ∧
        (∀ k, k ∉ directiveKeys v ∨ mapLookup (nodeAfterGet s pod.NodeName).Labels k = none →
          mapLookup p.Labels k = mapLookup pod.Labels k)) ∧
      ((¬ ∃ k ∈ directiveKeys v, ∃ val,
          mapLookup (nodeAfterGet s pod.NodeName).Labels k = some val ∧
          mapLookup pod.Labels k ≠ some val) →
        writes (Reconcile s req).calls = [] ∧
        (Reconcile s req).ret = .returned ⟨false, 0⟩ none) := by
  constructor
  · rcases Reconcile_writes s req with ⟨_, hw⟩ | ⟨_, _, _, _, _, _, _, _, _, hw, _, _⟩
    · rw [hw]; simp
    · rw [hw]; simp
  · intro pod v hp hn hlab ha hwf
    obtain ⟨st, hl, _⟩ := loop_total (nodeAfterGet s pod.NodeName) (Split v ',')
      ⟨pod.Labels, false⟩ (Option.ne_none_iff_isSome.mp hlab)
    have hnu := loop_needsUpdate _ _ _ _ hl
    have hfix : (∃ k ∈ directiveKeys v, ∃ val,
          mapLookup (nodeAfterGet s pod.NodeName).Labels k = some val ∧
          mapLookup pod.Labels k ≠ some val) ↔ st.needsUpdate = true := by
      rw [hnu]
      simp [directiveKeys, needsFix]
    rw [hfix]
    cases hu : st.needsUpdate with
    | false =>
      rw [Reconcile_noUpdate hp hn ha hwf hl hu]
      simp [writes]
    | true =>
      rw [Reconcile_update hp hn ha hwf hl hu]
      simp only [writes, List.length_singleton, List.mem_singleton, true_iff, forall_eq,
        not_true_eq_false, false_implies, and_true, true_and]
      have hlabels := loop_labels _ _ _ _ hl
      constructor
      · intro k hk val hval
        have hk' : k ∈ (Split v ',').map (fun t => Trim t " \n\r") := hk
        rw [hlabels k]
        simp [hk', hval]
      · intro k hk
        have hk' : ¬ (k ∈ (Split v ',').map (fun t => Trim t " \n\r") ∧
            (mapLookup (nodeAfterGet s pod.NodeName).Labels k).isSome) := by
          rintro ⟨h1, h2⟩
          rcases hk with hk | hk
          · exact hk h1
          · rw [hk] at h2; cases h2
        rw [hlabels k, if_neg hk']

/-- C5 at a concrete store: the label-copy example issues exactly one update, carrying `zone`. -/
theorem C5_witness :
    (writes (Reconcile (storeOf podZone nodeZone) "default/web").calls).length = 1 ∧
    writes (Reconcile (storeOf podZone nodeZone) "default/web").calls =
      [⟨some [("nodeLabelsInherited", "zone")], "n1", some [("zone", "us-east-1a")]⟩] :=
  ⟨((C5_one_update_iff_correction (storeOf podZone nodeZone) "default/web").2 podZone "zone"
      rfl (by decide) (by decide) (by decide) (by decide)).1.mpr
      ⟨"zone", by decide, "us-east-1a", by decide, by decide⟩,
   by decide⟩

/-- C6: an attempt returns a non-nil error `e` in exactly three cases: the pod read failed
with an error other than not-found and `e` is that error; the pod was found, has a host and
the annotation, and the annotation value fails the check of line 86, `e` being the parse error
built from the value; or an update was issued, the store refused it and `e` is the refusal.
A failed pod read issues no update and leaves the store alone, and a not-found pod gives
success. A host read that was made and failed is not reported: the attempt returns success
with no update, with the same return value and the same calls as on a store whose hosts have
no labels. A returned result is always the zero result, which requests no requeue. -/
theorem C6_returned_errors (s : Store) (req : String) :
    (∀ e, (∃ res, (Reconcile s req).ret = .returned res (some e)) ↔
      (∃ ce, s.pods req = .error ce ∧ IsNotFound ce = false ∧ e = .client ce) ∨
      (∃ pod v, s.pods req = .ok pod ∧ pod.NodeName ≠ "" ∧
        mapLookup pod.Annotations "nodeLabelsInherited" = some v ∧ ¬ wellFormed v ∧
        e = .errorf ("failed to parse node labels: " ++ v)) ∨
      (∃ p ce, p ∈ writes (Reconcile s req).calls ∧ s.rejects req p = some ce ∧
        e = .client ce)) ∧
    (∀ ce, s.pods req = .error ce →
      writes (Reconcile s req).calls = [] ∧ (Reconcile s req).store = s ∧
      (IsNotFound ce = true → (Reconcile s req).ret = .returned ⟨false, 0⟩ none) ∧
      (IsNotFound ce = false →
        (Reconcile s req).ret = .returned ⟨false, 0⟩ (some (.client ce)))) ∧
    (∀ pod ce, s.pods req = .ok pod → pod.NodeName ∈ nodeReads (Reconcile s req).calls →
      s.nodes pod.NodeName = .error ce →
      (Reconcile s req).ret = .returned ⟨false, 0⟩ none ∧
      writes (Reconcile s req).calls = [] ∧
      (Reconcile s req).ret = (Reconcile (withUnlabelledHosts s) req).ret ∧
      (Reconcile s req).calls = (Reconcile (withUnlabelledHosts s) req).calls) ∧
    (∀ res err, (Reconcile s req).ret = .returned res err → res = ⟨false, 0⟩) := by
  refine ⟨returned_error s req, ?_, ?_, returned_result s req⟩
  · intro ce hp
    rw [Reconcile_podError hp]
    refine ⟨rfl, rfl, ?_, ?_⟩
    · intro h; simp [h]
    · intro h; simp [h]
  · intro pod ce hp hread he
    have key : ∃ v, mapLookup pod.Annotations "nodeLabelsInherited" = some v ∧
        pod.NodeName ≠ "" ∧ wellFormed v := by
      rcases Reconcile_cases s req with ⟨e, hp', _⟩ | ⟨pod', _, _, h⟩ |
        ⟨pod', v, _, _, _, _, h⟩ | ⟨pod', v, hp', hn, ha, hw, _, _⟩ |
        ⟨pod', v, st, hp', hn, ha, hw, _, _, _⟩ | ⟨pod', v, st, hp', hn, ha, hw, _, _, _⟩
      · rw [hp] at hp'; cases hp'
      · rw [h] at hread; simp [nodeReads] at hread
      · rw [h] at hread; simp [nodeReads] at hread
      · rw [hp] at hp'; cases hp'; exact ⟨v, ha, hn, hw⟩
      · rw [hp] at hp'; cases hp'; exact ⟨v, ha, hn, hw⟩
      · rw [hp] at hp'; cases hp'; exact ⟨v, ha, hn, hw⟩
    obtain ⟨v, ha, hn, hw⟩ := key
    have hp2 : (withUnlabelledHosts s).pods req = .ok pod := hp
    have hl2 : loop (nodeAfterGet (withUnlabelledHosts s) pod.NodeName) ⟨pod.Labels, false⟩
        (Split v ',') = some ⟨pod.Labels, false⟩ := loop_zero_node _ _
    rw [Reconcile_nodeError hp hn ha hw he, Reconcile_noUpdate hp2 hn ha hw hl2 rfl]
    exact ⟨rfl, rfl, rfl, rfl⟩

/-- C6 at concrete stores: a timeout on the pod read is returned, a not-found is success, and
the refusal of the update is returned. -/
theorem C6_witness :
    (Reconcile (brokenStore ⟨false, "timeout"⟩) "default/web").ret =
      .returned ⟨false, 0⟩ (some (.client ⟨false, "timeout"⟩)) ∧
    (Reconcile (brokenStore ⟨true, "not found"⟩) "default/web").ret =
      .returned ⟨false, 0⟩ none ∧
    (Reconcile (conflictStoreOf podZone nodeZone) "default/web").ret =
      .returned ⟨false, 0⟩ (some (.client ⟨false, "conflict"⟩)) :=
  ⟨((C6_returned_errors (brokenStore ⟨false, "timeout"⟩) "default/web").2.1
      ⟨false, "timeout"⟩ rfl).2.2.2 rfl,
   by decide, by decide⟩

/-- C7: for a found pod with a host assigned whose `nodeLabelsInherited` annotation is present
with value `v`, the attempt returns an error built by `fmt.Errorf` if and only if the first
token of `v` split on `,` is empty, which is the case exactly when `v` is empty or begins with
`,`. Then the error message is `failed to parse node labels: ` followed by `v`, and the pod
read is the only call: no host read, no update. Otherwise the host is read and the attempt is
the loop run over the whole token list of `v`, empty tokens included, as for ` ,zone` and
`zone,,rack`. -/
theorem C7_parse_error_iff_first_token_empty (s : Store) (req : String) (pod : Pod) (v : String)
    (hfound : s.pods req = .ok pod) (hhost : pod.NodeName ≠ "")
    (hann : mapLookup pod.Annotations "nodeLabelsInherited" = some v) :
    ((∃ res msg, (Reconcile s req).ret = .returned res (some (.errorf msg))) ↔
      (Split v ',').head? = some "") ∧
    ((Split v ',').head? = some "" ↔ v = "" ∨ v.data.head? = some ',') ∧
    ((Split v ',').head? = some "" →
      (Reconcile s req).ret =
        .returned ⟨false, 0⟩ (some (.errorf ("failed to parse node labels: " ++ v))) ∧
      (Reconcile s req).calls = [.getPod req] ∧
      nodeReads (Reconcile s req).calls = [] ∧ writes (Reconcile s req).calls = [] ∧
      (Reconcile s req).store = s) ∧
    ((Split v ',').head? ≠ some "" →
      nodeReads (Reconcile s req).calls = [pod.NodeName] ∧
      Reconcile s req =
        match loop (nodeAfterGet s pod.NodeName) ⟨pod.Labels, false⟩ (Split v ',') with
        | none => ⟨.fault, [.getPod req, .getNode pod.NodeName], s⟩
        | some st =>
          if st.needsUpdate = true then
            ⟨.returned ⟨false, 0⟩ (s.Update req { pod with Labels := st.labels }).1,
              [.getPod req, .getNode pod.NodeName, .update req { pod with Labels := st.labels }],
              (s.Update req { pod with Labels := st.labels }).2⟩
          else ⟨.returned ⟨false, 0⟩ none, [.getPod req, .getNode pod.NodeName], s⟩) ∧
    (Split " ,zone" ',' = [" ", "zone"] ∧ (Split " ,zone" ',').head? ≠ some "") ∧
    (Split "zone,,rack" ',' = ["zone", "", "rack"] ∧ (Split "zone,,rack" ',').head? ≠ some "") := by
  refine ⟨?_, Split_head_empty v ',', ?_, ?_, by decide, by decide⟩
  · constructor
    · rintro ⟨res, msg, hret⟩
      by_contra hc
      have hw : wellFormed v := (wellFormed_iff_head v).mpr hc
      rcases (returned_error s req (.errorf msg)).mp ⟨res, hret⟩ with
        ⟨ce, _, _, he⟩ | ⟨pod', v', hp', _, ha', hw', _⟩ | ⟨_, ce, _, _, he⟩
      · cases he
      · rw [hfound] at hp'
        cases hp'
        rw [hann] at ha'
        cases ha'
        exact hw' hw
      · cases he
    · intro hh
      have hw : ¬ wellFormed v := fun h => (wellFormed_iff_head v).mp h hh
      rw [Reconcile_malformed hfound hhost hann hw]
      exact ⟨_, _, rfl⟩
  · intro hh
    have hw : ¬ wellFormed v := fun h => (wellFormed_iff_head v).mp h hh
    rw [Reconcile_malformed hfound hhost hann hw]
    exact ⟨rfl, rfl, rfl, rfl, rfl⟩
  · intro hh
    have hw : wellFormed v := (wellFormed_iff_head v).mpr hh
    refine ⟨?_, Reconcile_wellFormed hfound hhost hann hw⟩
    rw [Reconcile_wellFormed hfound hhost hann hw]
    cases loop (nodeAfterGet s pod.NodeName) ⟨pod.Labels, false⟩ (Split v ',') with
    | none => rfl
    | some st =>
      obtain ⟨l, b⟩ := st
      cases b <;> rfl

/-- C7 at a concrete store: the value `,zone` gives the parse error after the pod read alone. -/
theorem C7_witness :
    (Reconcile (storeOf podLeadingComma nodeZone) "default/web").ret =
      .returned ⟨false, 0⟩ (some (.errorf "failed to parse node labels: ,zone")) ∧
    (Reconcile (storeOf podLeadingComma nodeZone) "default/web").calls =
      [.getPod "default/web"] :=
  let h := (C7_parse_error_iff_first_token_empty (storeOf podLeadingComma nodeZone)
    "default/web" podLeadingComma ",zone" rfl (by decide) (by decide)).2.2.1 (by decide)
  ⟨h.1, h.2.1⟩

/-- C8 (amended): for a found pod with a host assigned, an absent `nodeLabelsInherited`
annotation (no annotation map, or a map without the key) gives success with a nil error, no
host read and no update; an annotation present with the empty string as its value gives the
parse error `failed to parse node labels: `, again with no host read and no update. -/
theorem C8_absent_succeeds_empty_fails (s : Store) (req : String) (pod : Pod)
    (hfound : s.pods req = .ok pod) (_hhost : pod.NodeName ≠ "") :
    ((pod.Annotations = none ∨ mapLookup pod.Annotations "nodeLabelsInherited" = none) →
      (Reconcile s req).ret = .returned ⟨false, 0⟩ none ∧
      (Reconcile s req).calls = [.getPod req] ∧ writes (Reconcile s req).calls = []) ∧
    (mapLookup pod.Annotations "nodeLabelsInherited" = some "" →
      (Reconcile s req).ret =
        .returned ⟨false, 0⟩ (some (.errorf "failed to parse node labels: ")) ∧
      (Reconcile s req).calls = [.getPod req] ∧ writes (Reconcile s req).calls = []) := by
  constructor
  · intro h
    have hg : pod.Annotations = none ∨ pod.NodeName = "" ∨
        mapLookup pod.Annotations "nodeLabelsInherited" = none := by
      rcases h with h | h
      · exact Or.inl h
      · exact Or.inr (Or.inr h)
    rw [Reconcile_gated hfound hg]
    exact ⟨rfl, rfl, rfl⟩
  · intro h
    have hw : ¬ wellFormed "" := by decide
    rw [Reconcile_malformed hfound _hhost h hw]
    exact ⟨rfl, rfl, rfl⟩

/-- C8 (amended) at a concrete store: the empty annotation value stops after the pod read. -/
theorem C8_witness :
    (Reconcile (storeOf podEmptyValue nodeZone) "default/web").calls = [.getPod "default/web"] :=
  ((C8_absent_succeeds_empty_fails (storeOf podEmptyValue nodeZone) "default/web"
    podEmptyValue rfl (by decide)).2 (by decide)).2.1

/-- C8 as stated fails: a found, host-assigned pod whose annotation is present with the empty
string as value gets the parse error, not success. -/
theorem C8_counterexample :
    (storeOf podEmptyValue nodeZone).pods "default/web" = .ok podEmptyValue ∧
    podEmptyValue.NodeName ≠ "" ∧
    mapLookup podEmptyValue.Annotations "nodeLabelsInherited" = some "" ∧
    (Reconcile (storeOf podEmptyValue nodeZone) "default/web").ret =
      .returned ⟨false, 0⟩ (some (.errorf "failed to parse node labels: ")) ∧
    (Reconcile (storeOf podEmptyValue nodeZone) "default/web").ret ≠
      .returned ⟨false, 0⟩ none :=
  ⟨rfl, by decide, by decide, by decide, by decide⟩

/-- C9 (amended): the key an iteration of the diff loop looks up is the token with its
leading and trailing spaces, newlines and carriage returns removed, and nothing else: the
iteration reads the host and the pod under exactly that key and assigns under exactly that
key; what is cut off on either side consists of those three characters only, the key neither
begins nor ends with one of them, its interior is kept, and a first or last character that is
none of the three (a tab, say) stays in the key. So the token made of a tab and `zone` is
looked up with its tab, and an attempt none of whose keys the host has writes nothing, even
when the host has `zone`. The value ` zone , rack ` yields the keys `zone` and `rack`, and a
host label `zone` is inherited when some token of a well-formed value is `zone` written
between any runs of spaces, newlines and carriage returns: every update issued carries the
host's value under `zone`, the stored pod has it whenever the attempt returns without
error, and the one update is issued when the pod has a label map that does not hold it. -/
theorem C9_keys_trimmed_of_space_newline_return :
    (∀ node st t, loopBody node st t = loopBody node st (Trim t " \n\r")) ∧
    (∀ t : String, ∃ pre post : List Char,
      t.data = pre ++ (Trim t " \n\r").data ++ post ∧
      (∀ c ∈ pre, c = ' ' ∨ c = '\n' ∨ c = '\r') ∧
      (∀ c ∈ post, c = ' ' ∨ c = '\n' ∨ c = '\r')) ∧
    (∀ (t : String) (c : Char), (Trim t " \n\r").data.head? = some c →
      c ≠ ' ' ∧ c ≠ '\n' ∧ c ≠ '\r') ∧
    (∀ (t : String) (c : Char), (Trim t " \n\r").data.getLast? = some c →
      c ≠ ' ' ∧ c ≠ '\n' ∧ c ≠ '\r') ∧
    directiveKeys " zone , rack " = ["zone", "rack"] ∧
    (∀ (s : Store) (req : String) (pod : Pod) (node : Node) (pre post : List Char)
      (val : String),
      (∀ c ∈ pre, c = ' ' ∨ c = '\n' ∨ c = '\r') →
      (∀ c ∈ post, c = ' ' ∨ c = '\n' ∨ c = '\r') →
      s.pods req = .ok pod → pod.NodeName ≠ "" →
      mapLookup pod.Annotations "nodeLabelsInherited" =
        some (String.mk (pre ++ "zone".data ++ post)) →
      s.nodes pod.NodeName = .ok node → mapLookup node.Labels "zone" = some val →
      (∃ res, (Reconcile s req).ret = .returned res none) →
      ∃ p, (Reconcile s req).store.pods req = .ok p ∧
        mapLookup p.Labels "zone" = some val) ∧
    (∀ (node : Node) (st : LoopState) (t : String),
      loopBody node st t =
        match mapLookup node.Labels (Trim t " \n\r") with
        | none => some st
        | some v =>
          if mapLookup st.labels (Trim t " \n\r") = some v then some st
          else
            match mapAssign st.labels (Trim t " \n\r") v with
            | none => none
            | some m => some { labels := m, needsUpdate := true }) ∧
    (∀ (t : String) (c : Char), t.data.head? = some c → c ≠ ' ' → c ≠ '\n' → c ≠ '\r' →
      (Trim t " \n\r").data.head? = some c) ∧
    (∀ (t : String) (c : Char), t.data.getLast? = some c → c ≠ ' ' → c ≠ '\n' → c ≠ '\r' →
      (Trim t " \n\r").data.getLast? = some c) ∧
    (Trim "\tzone" " \n\r" = "\tzone" ∧ directiveKeys "\tzone" = ["\tzone"] ∧
      wellFormed "\tzone") ∧
    (∀ (s : Store) (req : String) (pod : Pod) (v : String),
      s.pods req = .ok pod → pod.NodeName ≠ "" →
      mapLookup pod.Annotations "nodeLabelsInherited" = some v → wellFormed v →
      (∀ t ∈ Split v ',',
        mapLookup (nodeAfterGet s pod.NodeName).Labels (Trim t " \n\r") = none) →
      (Reconcile s req).ret = .returned ⟨false, 0⟩ none ∧
      (Reconcile s req).calls = [.getPod req, .getNode pod.NodeName] ∧
      writes (Reconcile s req).calls = [] ∧ (Reconcile s req).store = s) ∧
    (∀ (s : Store) (req : String) (pod : Pod) (v : String) (node : Node)
      (pre post : List Char) (val : String),
      wellFormed v →
      (∀ c ∈ pre, c = ' ' ∨ c = '\n' ∨ c = '\r') →
      (∀ c ∈ post, c = ' ' ∨ c = '\n' ∨ c = '\r') →
      String.mk (pre ++ "zone".data ++ post) ∈ Split v ',' →
      s.pods req = .ok pod → pod.NodeName ≠ "" →
      mapLookup pod.Annotations "nodeLabelsInherited" = some v →
      s.nodes pod.NodeName = .ok node → mapLookup node.Labels "zone" = some val →
      (∀ p ∈ writes (Reconcile s req).calls, mapLookup p.Labels "zone" = some val) ∧
      ((∃ res, (Reconcile s req).ret = .returned res none) →
        ∃ p, (Reconcile s req).store.pods req = .ok p ∧
          mapLookup p.Labels "zone" = some val) ∧
      (pod.Labels ≠ none → mapLookup pod.Labels "zone" ≠ some val →
        (writes (Reconcile s req).calls).length = 1)) := by
  refine ⟨loopBody_trimmed, ?_, ?_, ?_, by decide, ?_, loopBody_eq, ?_, ?_,
    ⟨by decide, by decide, by decide⟩, ?_, ?_⟩
  · intro t
    obtain ⟨pre, post, h1, h2, h3⟩ := Trim_decompose t " \n\r"
    exact ⟨pre, post, h1, fun c hc => (inCutset_iff c).mp (h2 c hc),
      fun c hc => (inCutset_iff c).mp (h3 c hc)⟩
  · intro t c h
    exact (inCutset_false_iff c).mp (Trim_head t " \n\r" c h)
  · intro t c h
    exact (inCutset_false_iff c).mp (Trim_getLast t " \n\r" c h)
  · intro s req pod node pre post val hpre hpost hp hn ha hnode hval hret
    have hw : wellFormed (String.mk (pre ++ "zone".data ++ post)) :=
      wellFormed_surrounded pre "zone".data post hpre (by decide) (by decide)
    have hkeys : directiveKeys (String.mk (pre ++ "zone".data ++ post)) = ["zone"] :=
      directiveKeys_surrounded pre "zone".data post hpre hpost (by decide)
        (by decide) (by decide)
    have hnd : nodeAfterGet s pod.NodeName = node := by simp [nodeAfterGet, hnode]
    have h := stored_matches_host hp hn ha hw hret "zone" (by rw [hkeys]; simp) val
    rw [hnd] at h
    exact h hval
  · intro t c h h1 h2 h3
    exact Trim_head_kept t " \n\r" c h ((inCutset_false_iff c).mpr ⟨h1, h2, h3⟩)
  · intro t c h h1 h2 h3
    exact Trim_getLast_kept t " \n\r" c h ((inCutset_false_iff c).mpr ⟨h1, h2, h3⟩)
  · intro s req pod v hp hn ha hw hk
    have hk' : ∀ k ∈ directiveKeys v,
        mapLookup (nodeAfterGet s pod.NodeName).Labels k = none := by
      intro k hmem
      simp only [directiveKeys, List.mem_map] at hmem
      obtain ⟨t, ht, rfl⟩ := hmem
      exact hk t ht
    rw [Reconcile_noKeys hp hn ha hw hk']
    exact ⟨rfl, rfl, rfl, rfl⟩
  · intro s req pod v node pre post val hw hpre hpost hmem hp hn ha hnode hval
    have htrim : Trim (String.mk (pre ++ "zone".data ++ post)) " \n\r" = "zone" :=
      Trim_surrounded " \n\r" pre "zone".data post
        (fun c hc => (inCutset_iff c).mpr (hpre c hc))
        (fun c hc => (inCutset_iff c).mpr (hpost c hc)) (by decide) (by decide)
    have hkey : "zone" ∈ directiveKeys v := by
      simp only [directiveKeys, List.mem_map]
      exact ⟨_, hmem, htrim⟩
    have hnd : nodeAfterGet s pod.NodeName = node := by simp [nodeAfterGet, hnode]
    have hpk : podDirectiveKeys pod = directiveKeys v := by simp [podDirectiveKeys, ha]
    refine ⟨?_, ?_, ?_⟩
    · intro p hpw
      rw [(written_labels hp "zone").1 p hpw, hpk, hnd]
      simp [hkey, hval]
    · intro hret
      have h := stored_matches_host hp hn ha hw hret "zone" hkey val
      rw [hnd] at h
      exact h hval
    · intro hlab hne
      exact one_write_of_needsFix hp hn hlab ha hw
        ⟨"zone", hkey, val, by rw [hnd]; exact hval, hne⟩

/-- C9 (amended) at concrete stores: `zone` written between space, newline and return is
inherited, and `zone` written after a tab is not: that attempt writes nothing. -/
theorem C9_witness :
    (∃ p, (Reconcile (storeOf podPadded nodeZone) "default/web").store.pods "default/web" =
        .ok p ∧ mapLookup p.Labels "zone" = some "us-east-1a") ∧
    (writes (Reconcile (storeOf podPadded nodeZone) "default/web").calls).length = 1 ∧
    mapLookup nodeZone.Labels "zone" = some "us-east-1a" ∧
    writes (Reconcile (storeOf podTab nodeZone) "default/web").calls = [] :=
  ⟨C9_keys_trimmed_of_space_newline_return.2.2.2.2.2.1 (storeOf podPadded nodeZone)
      "default/web" podPadded nodeZone [' ', '\n'] ['\r', ' '] "us-east-1a" (by decide)
      (by decide) rfl (by decide) (by decide) rfl (by decide) ⟨⟨false, 0⟩, by decide⟩,
   (C9_keys_trimmed_of_space_newline_return.2.2.2.2.2.2.2.2.2.2.2 (storeOf podPadded nodeZone)
      "default/web" podPadded " \nzone\r " nodeZone [' ', '\n'] ['\r', ' '] "us-east-1a"
      (by decide) (by decide) (by decide) (by decide) rfl (by decide) (by decide) rfl
      (by decide)).2.2 (by decide) (by decide),
   by decide,
   (C9_keys_trimmed_of_space_newline_return.2.2.2.2.2.2.2.2.2.2.1 (storeOf podTab nodeZone)
      "default/web" podTab "\tzone" rfl (by decide) (by decide) (by decide)
      (by decide)).2.2.1⟩

/-- C9 as stated fails: a leading tab is not removed. For the well-formed value made of a tab
and `zone` the key looked up is the whole token, it begins with the tab, and the host's
`zone` label is not inherited: the attempt reads pod and host and writes nothing. -/
theorem C9_counterexample :
    wellFormed "\tzone" ∧
    directiveKeys "\tzone" = ["\tzone"] ∧
    directiveKeys "\tzone" ≠ ["zone"] ∧
    (Trim "\tzone" " \n\r").data.head? = some '\t' ∧
    mapLookup nodeZone.Labels "zone" = some "us-east-1a" ∧
    (Reconcile (storeOf podTab nodeZone) "default/web").calls =
      [.getPod "default/web", .getNode "n1"] ∧
    (Reconcile (storeOf podTab nodeZone) "default/web").ret = .returned ⟨false, 0⟩ none :=
  ⟨by decide, by decide, by decide, by decide, by decide, by decide, by decide⟩

/-- C10 fails on the code: for a found, host-assigned pod that has annotations but no label
map, with host `n1` carrying `zone`, staging the correction is an assignment to an entry of
the nil map; the attempt stops on that runtime fault after the two reads, returns neither a
result nor an error, and writes nothing. -/
theorem C10_nil_label_map_faults :
    (storeOf podNoLabels nodeZone).pods "default/web" = .ok podNoLabels ∧
    podNoLabels.Labels = none ∧
    mapAssign podNoLabels.Labels "zone" "us-east-1a" = none ∧
    (Reconcile (storeOf podNoLabels nodeZone) "default/web").ret = .fault ∧
    (Reconcile (storeOf podNoLabels nodeZone) "default/web").calls =
      [.getPod "default/web", .getNode "n1"] :=
  ⟨rfl, rfl, rfl, by decide, by decide⟩

end NodeLabelInheritor
